import Mathlib

/-!
# xt_entropy: the Shannon-entropy X-Tension (`shannon.cpp`)

A shallow embedding of `src/xt_entropy/shannon.cpp` and the properties of it that
the specification states.

Conventions of the embedding

* `BYTE` is `Fin 256`; a buffer handed to `CalcEntropyInByte` together with its
  byte count `fsize` is the list of its `fsize` bytes. `fsize` is a `DWORD`, so the
  buffers the function can receive have fewer than `2 ^ 32` bytes.
* `unsigned long` counters are 32 bits wide (the program is a Windows DLL):
  `+= 1` is taken modulo `2 ^ 32`.
* `CalcEntropyInByte` reads `double` arithmetic over the real numbers, with `std::log2`
  as `Real.logb 2`: it is the function without rounding. `CalcEntropyInByteD` is the
  same code over a `double` arithmetic that is a parameter (`Doubles`); the comment
  text of `XT_Finalize` is computed with it.
-/

namespace XtEntropy

/-- A `BYTE`. -/
abbrev BYTE := Fin 256

/-- One round of the first loop of `CalcEntropyInByte`:
`freqList[filebuf[i]] += 1` on a 32-bit `unsigned long`. -/
def countStep (freqList : List Nat) (b : BYTE) : List Nat :=
  freqList.set b.val ((freqList.getD b.val 0 + 1) % 4294967296)

/-- The histogram `freqList` after the first loop of `CalcEntropyInByte`:
starting from `{ 0 }` (256 zero counters), one `countStep` per byte, in order. -/
def freqList (filebuf : List BYTE) : List Nat :=
  filebuf.foldl countStep (List.replicate 256 0)

/-- One round of the second loop of `CalcEntropyInByte`:
`if (freqList[i] > 0) { freq = double(freqList[i]) / fileSize;
entropy = entropy + freq * std::log2(freq); }`. -/
noncomputable def entropyStep (freqList : List Nat) (fileSize : Nat) (entropy : ℝ) (i : Nat) : ℝ :=
  if freqList.getD i 0 > 0 then
    entropy + ((freqList.getD i 0 : ℝ) / (fileSize : ℝ))
      * Real.logb 2 ((freqList.getD i 0 : ℝ) / (fileSize : ℝ))
  else entropy

/-- The value of `entropy` when the second loop of `CalcEntropyInByte` has run
(`for (int i = 0; i < 256; i++)`), before the final sign test. -/
noncomputable def entropyAccum (filebuf : List BYTE) : ℝ :=
  (List.range 256).foldl (entropyStep (freqList filebuf) filebuf.length) 0

/-- The function `CalcEntropyInByte(filebuf, fsize)`: the accumulated sum, negated
when it is negative (`if (entropy < 0) entropy = -1 * entropy;`). -/
noncomputable def CalcEntropyInByte (filebuf : List BYTE) : ℝ :=
  if entropyAccum filebuf < 0 then -1 * entropyAccum filebuf else entropyAccum filebuf

/-- Follows the spec's words (glossary, 4.1): the Shannon entropy `-Σ p_v log2(p_v)`
over the byte values `v` that occur in the buffer, `p_v = c_v / length`. -/
noncomputable def shannonEntropy (filebuf : List BYTE) : ℝ :=
  - ∑ v in filebuf.toFinset,
      ((filebuf.count v : ℝ) / (filebuf.length : ℝ))
        * Real.logb 2 ((filebuf.count v : ℝ) / (filebuf.length : ℝ))

/-- The summand the second loop adds for counter value `c` and size `n`. -/
noncomputable def term (c n : Nat) : ℝ :=
  if c > 0 then ((c : ℝ) / (n : ℝ)) * Real.logb 2 ((c : ℝ) / (n : ℝ)) else 0

/-- The per-value distance from the uniform distribution. -/
noncomputable def gap (c n : Nat) : ℝ :=
  term c n + 8 * ((c : ℝ) / (n : ℝ)) - ((c : ℝ) / (n : ℝ) - 1/256) / Real.log 2

/-! ## The registry, the host and the phase entries

Conventions of the embedding

* The chain `first_volume → next → …` is the list `volumes`, in chain order;
  `current_volume` is the position of the record it points to, `none` for `NULL`.
* A `WCHAR` string is the list of its characters before the terminating NUL.
* `file_ids` is `none` for `NULL`, otherwise the allocated block; its length is the
  number of elements that were requested from `malloc`, and an element nobody has
  stored yet is `none`. `calloc` and `malloc` of registry data are taken to succeed
  (the program does not test them); the scratch `malloc` of `XT_Finalize`, which the
  program does test, is an answer of the host.
* An access the C program makes outside an allocated block, through `NULL`, or to
  an element never stored is a `Fault`; a phase entry returns `Except Fault`.
* Calls that only drive the progress display are left out; messages and comments
  handed to the host are appended to `out`.
-/

/-- Modelled from the spec: the constants of `X-tension.h`, which is not among the
sources. The spec (section 6) names the operation codes and the signals of Prepare
without fixing their numbers, so they are parameters of the embedding; the labels of
one `switch` are distinct, as C requires. -/
structure XTension where
  XT_INIT_XWF : Nat
  XT_INIT_WHX : Nat
  XT_INIT_XWI : Nat
  XT_INIT_BETA : Nat
  XT_INIT_ABOUTONLY : Nat
  XT_INIT_QUICKCHECK : Nat
  XT_ACTION_RUN : Nat
  XT_ACTION_RVS : Nat
  XT_ACTION_LSS : Nat
  XT_ACTION_PSS : Nat
  XT_ACTION_DBC : Nat
  XT_ACTION_SHC : Nat
  XT_PREPARE_CALLPI : Nat
  XT_PREPARE_CALLPILATE : Nat
  labels_distinct : [XT_ACTION_RUN, XT_ACTION_LSS, XT_ACTION_PSS, XT_ACTION_SHC,
    XT_ACTION_RVS, XT_ACTION_DBC].Nodup

/-- The numbers the X-Tension API of X-Ways Forensics gives these constants. -/
def xways : XTension where
  XT_INIT_XWF := 1
  XT_INIT_WHX := 2
  XT_INIT_XWI := 4
  XT_INIT_BETA := 8
  XT_INIT_ABOUTONLY := 64
  XT_INIT_QUICKCHECK := 32
  XT_ACTION_RUN := 0
  XT_ACTION_RVS := 1
  XT_ACTION_LSS := 2
  XT_ACTION_PSS := 3
  XT_ACTION_DBC := 4
  XT_ACTION_SHC := 5
  XT_PREPARE_CALLPI := 1
  XT_PREPARE_CALLPILATE := 2
  labels_distinct := by decide

/-- The constant `#define MIN_VER 1990`. -/
def MIN_VER : Nat := 1990

/-- What the program hands to the host: `XWF_OutputMessage(text, 0)` and
`XWF_AddComment(id, text, 0x00)`. -/
inductive Event where
  | message (text : String)
  | comment (id : Int) (text : String)
deriving DecidableEq, Repr

/-- An access that C leaves undefined. -/
inductive Fault where
  | nullDeref
  | outOfBounds (index : Int) (capacity : Nat)
  | indeterminate (index : Nat)
deriving DecidableEq, Repr

/-- The record `struct XtVolume`; `next` is the order of the list that holds it. -/
structure XtVolume where
  file_ids : Option (List (Option Int))
  file_count : Int
  name : List Char
deriving DecidableEq, Repr

/-- The globals `EXIT`, `first_volume` (as the chain), `current_volume`, and what has
been handed to the host so far. -/
structure Globals where
  EXIT : Bool
  volumes : List XtVolume
  current_volume : Option Nat
  out : List Event
deriving DecidableEq, Repr

/-- The globals as the initialisers of the file set them: `EXIT = FALSE`,
`first_volume = NULL`, `current_volume = NULL`. -/
def Globals.startup : Globals :=
  { EXIT := false, volumes := [], current_volume := none, out := [] }

/-- The record `calloc(1, sizeof(struct XtVolume))` returns: all bytes zero. -/
def XtVolume.zeroed : XtVolume :=
  { file_ids := none, file_count := 0, name := [] }

/-- The call `XWF_OutputMessage(text, 0)`. -/
def Globals.output (g : Globals) (text : String) : Globals :=
  { g with out := g.out ++ [Event.message text] }

/-- The record `current_volume` points to. -/
def Globals.current (g : Globals) : Option XtVolume :=
  match g.current_volume with
  | none => none
  | some i => g.volumes[i]?

/-- Assignment to the fields of `*current_volume`. -/
def Globals.setCurrent (g : Globals) (v : XtVolume) : Globals :=
  match g.current_volume with
  | none => g
  | some i => { g with volumes := g.volumes.set i v }

/-- The `while (current)` loop of `SetCurrentVolume`: the position of the first
record, from position `i` on, with `wcscmp(name, current->name) == 0`. -/
def findVolume (name : List Char) : List XtVolume → Nat → Option Nat
  | [], _ => none
  | current :: rest, i => if name = current.name then some i else findVolume name rest (i + 1)

/-- The function `SetCurrentVolume(name)`: the new globals and the `BOOL` returned.
A record is appended behind the last one (`previous->next`, or `first_volume` when
the chain is empty); nothing is stored in its `name`. -/
def SetCurrentVolume (g : Globals) (name : List Char) : Globals × Bool :=
  match findVolume name g.volumes 0 with
  | some i => ({ g with current_volume := some i }, true)
  | none =>
    ({ g with volumes := g.volumes ++ [XtVolume.zeroed],
              current_volume := some g.volumes.length }, false)

/-- The function `XT_Init`, with the answers of the host as arguments: `version` is
`info.version`, `caseProp` the result of `XWF_GetCaseProp`, `firstEvObj` whether
`XWF_GetFirstEvObj(NULL)` is non-null. -/
def XT_Init (api : XTension) (version : Nat) (nFlags : Nat) (caseProp : Int)
    (firstEvObj : Bool) (g : Globals) : Globals × Int :=
  if (api.XT_INIT_XWF &&& nFlags) = 0 ∨ (api.XT_INIT_WHX &&& nFlags) ≠ 0
      ∨ (api.XT_INIT_XWI &&& nFlags) ≠ 0 ∨ (api.XT_INIT_BETA &&& nFlags) ≠ 0 then
    (g, -1)
  else if (api.XT_INIT_ABOUTONLY &&& nFlags) ≠ 0 ∨ (api.XT_INIT_QUICKCHECK &&& nFlags) ≠ 0 then
    (g, 1)
  else if version < MIN_VER then
    ({ g.output ("XT_ENTROPY: The Version of X-Ways Forensics must be v." ++ toString MIN_VER
          ++ " or Later. Exiting...") with EXIT := true }, 1)
  else if caseProp = -1 then
    ({ g.output "XT_ENTROPY: Active Case is Required. Exiting..." with EXIT := true }, 1)
  else if firstEvObj = false then
    ({ g.output "XT_ENTROPY: No Evidence is Found. Exiting..." with EXIT := true }, 1)
  else
    ({ g with volumes := [XtVolume.zeroed], current_volume := some 0 }, 0)

/-- Whether `wcsstr(longname, shortname)` is non-null: `shortname` occurs in
`longname` as a run of consecutive characters. -/
def wcsstr (longname shortname : List Char) : Bool :=
  match longname with
  | [] => shortname.isEmpty
  | c :: rest => shortname.isPrefixOf (c :: rest) || wcsstr rest shortname

/-- The loop `while (pos > 1)` of `XT_Prepare`, entered with `pos`: the condition
reads `shortname[pos]`, decrements `pos`, and reads `shortname[pos]` again when the
first character was a blank; on a match a NUL is stored at the new `pos`. The
element at index `wcslen(shortname)` is the terminating NUL. -/
def truncateAt (shortname : List Char) : Nat → List Char
  | 0 => shortname
  | 1 => shortname
  | pos + 2 =>
    if shortname.getD (pos + 2) (Char.ofNat 0) = ' '
        ∧ shortname.getD (pos + 1) (Char.ofNat 0) = ',' then
      shortname.take (pos + 1)
    else truncateAt shortname (pos + 1)

/-- The key before character replacement (lines 210-218). -/
def deriveKey (longname shortname : List Char) : List Char :=
  if wcsstr longname shortname = false then truncateAt shortname shortname.length
  else shortname

/-- The `switch (shortname[i])` of the replacement loop. -/
def replaceChar (c : Char) : Char :=
  if c = Char.ofNat 92 ∨ c = '/' ∨ c = ':' ∨ c = '*' ∨ c = '?' ∨ c = Char.ofNat 34
      ∨ c = '<' ∨ c = '>' ∨ c = '|' then '_'
  else c

/-- The replacement loop (lines 219-232). -/
def normalizeKey (key : List Char) : List Char :=
  key.map replaceChar

/-- Lines 205-243 of `XT_Prepare`, reached with `return_value` set by the `switch`:
`longname`, `shortname` are the answers of `XWF_GetVolumeName`, `item_count` that of
`XWF_GetItemCount`. -/
def prepareVolume (api : XTension) (longname shortname : List Char) (item_count : Nat)
    (g : Globals) (return_value : Int) : Except Fault (Globals × Int) :=
  let (g1, volume_exists) := SetCurrentVolume g (normalizeKey (deriveKey longname shortname))
  match g1.current with
  | none => Except.error Fault.nullDeref
  | some v =>
    let g2 := g1.setCurrent
      { v with file_ids := some (List.replicate item_count none), file_count := 0 }
    if volume_exists then Except.ok (g2, return_value)
    else Except.ok (g2, (api.XT_PREPARE_CALLPI : Int))

/-- The function `XT_Prepare`. -/
def XT_Prepare (api : XTension) (longname shortname : List Char) (item_count : Nat)
    (g : Globals) (nOpType : Nat) : Except Fault (Globals × Int) :=
  if g.EXIT then Except.ok (g, -1)
  else if nOpType = api.XT_ACTION_RUN then
    Except.ok (g.output
      "XT_ENTROPY: Not Supposed to be Executed from the Tools Menu. Exiting...", -1)
  else if nOpType = api.XT_ACTION_LSS ∨ nOpType = api.XT_ACTION_PSS
      ∨ nOpType = api.XT_ACTION_SHC then
    Except.ok (g.output
      "XT_ENTROPY: Not Supposed to be Executed during Searches. Exiting...", -3)
  else if nOpType = api.XT_ACTION_RVS then
    prepareVolume api longname shortname item_count g
      ((api.XT_PREPARE_CALLPI ||| api.XT_PREPARE_CALLPILATE : Nat) : Int)
  else if nOpType = api.XT_ACTION_DBC then
    prepareVolume api longname shortname item_count g 0
  else
    Except.ok (g.output
      "XT_ENTROPY: Does Not Support this Mode of Operation. Exiting...", -1)

/-- The function `XT_ProcessItem`: `fc = file_count++; file_ids[fc].xwf_id = nItemID`.
There is no comparison of `fc` with the size of the block. -/
def XT_ProcessItem (g : Globals) (nItemID : Int) : Except Fault (Globals × Int) :=
  if g.EXIT then Except.ok (g, -1)
  else
    match g.current_volume with
    | none =>
      Except.ok (g.output
        "XT_ENTROPY: Unable to Associate the File with a Volume. Exiting...", -1)
    | some _ =>
      match g.current with
      | none => Except.error Fault.nullDeref
      | some v =>
        match v.file_ids with
        | none => Except.error Fault.nullDeref
        | some block =>
          if 0 ≤ v.file_count ∧ v.file_count < block.length then
            Except.ok (g.setCurrent
              { v with file_count := v.file_count + 1,
                       file_ids := some (block.set v.file_count.toNat (some nItemID)) }, 0)
          else Except.error (Fault.outOfBounds v.file_count block.length)

/-- A run of `XT_ProcessItem`, one call per identifier, in order. -/
def collectAll (g : Globals) : List Int → Except Fault Globals
  | [] => Except.ok g
  | id :: ids =>
    match XT_ProcessItem g id with
    | Except.ok (g1, _) => collectAll g1 ids
    | Except.error f => Except.error f

/-- The answers of the host during one run of `XT_Finalize`, by iteration `i` and
item identifier: `shouldStop i` is `XWF_ShouldStop()` at the top of iteration `i`,
`openItem` whether `XWF_OpenItem` returned a handle, `mallocOk` whether the scratch
`malloc(expected_size)` returned a block, `read` the `actual_size` bytes `XWF_Read`
stored, `itemName` the string of `XWF_GetItemName`. -/
structure Host where
  shouldStop : Nat → Bool
  openItem : Nat → Int → Bool
  mallocOk : Nat → Int → Bool
  read : Nat → Int → List BYTE
  itemName : Int → String

/-- The element `file_ids[i].xwf_id` as `XT_Finalize` reads it. -/
def readId (file_ids : List (Option Int)) (i : Nat) : Except Fault Int :=
  match file_ids[i]? with
  | none => Except.error (Fault.outOfBounds i file_ids.length)
  | some none => Except.error (Fault.indeterminate i)
  | some (some id) => Except.ok id

/-- The body of the `for` loop of `XT_Finalize` below the `XWF_ShouldStop` test, for
item `id` at iteration `i`: what is handed to the host. `entropyText` gives, for the
bytes read, the text `swprintf_s(ent, "%1.16lf", CalcEntropyInByte(filebuf, actual_size))`
produces. -/
def finalizeItem (entropyText : List BYTE → String) (host : Host) (i : Nat) (id : Int) :
    List Event :=
  if host.openItem i id then
    if host.mallocOk i id = false then
      [Event.message ("XT_ENTROPY: Unable to Allocate Memory for \"" ++ host.itemName id
        ++ "\". Skipping...")]
    else if (host.read i id).length ≠ 0 then
      [Event.comment id (entropyText (host.read i id))]
    else
      [Event.message ("XT_ENTROPY: Unable to Calculate Entropy for 0-Byte File \""
        ++ host.itemName id ++ "\". Skipping...")]
  else []

/-- The `for (INT64 i = 0; i < fc; i++)` loop of `XT_Finalize` with `rounds`
iterations left, at index `i`: the output so far extended, and whether the loop was
left by `return 1` at `XWF_ShouldStop()`. -/
def finalizeLoop (entropyText : List BYTE → String) (host : Host)
    (file_ids : List (Option Int)) : Nat → Nat → List Event → Except Fault (List Event × Bool)
  | 0, _, out => Except.ok (out, false)
  | rounds + 1, i, out =>
    if host.shouldStop i then Except.ok (out, true)
    else
      match readId file_ids i with
      | Except.error f => Except.error f
      | Except.ok id =>
        finalizeLoop entropyText host file_ids rounds (i + 1)
          (out ++ finalizeItem entropyText host i id)

/-- The function `XT_Finalize`. -/
def XT_Finalize (entropyText : List BYTE → String) (host : Host) (g : Globals) :
    Except Fault (Globals × Int) :=
  if g.EXIT then Except.ok (g, 0)
  else
    match g.current with
    | none => Except.error Fault.nullDeref
    | some v =>
      match v.file_ids with
      | none => Except.ok (g, 0)
      | some file_ids =>
        if v.file_count = 0 then Except.ok (g, 0)
        else
          match finalizeLoop entropyText host file_ids v.file_count.toNat 0 g.out with
          | Except.error f => Except.error f
          | Except.ok (out, true) => Except.ok ({ g with out := out }, 1)
          | Except.ok (out, false) =>
            Except.ok ({ g with out := out }.setCurrent { v with file_ids := none }, 1)

/-- The arithmetic of `double` as the program uses it, taken as a parameter: the
embedding fixes neither the rounding of the platform nor the `std::log2` and the
`swprintf_s` of its C library. `ofNat` is the conversion of an unsigned integer,
`zero` is `0.0`, `negOne` is `-1` converted, `lt` is `<`, `printf16` is the conversion
`"%1.16lf"`. Nothing is assumed of the operations (`add` need not be associative). -/
structure Doubles where
  D : Type
  ofNat : Nat → D
  zero : D
  negOne : D
  add : D → D → D
  mul : D → D → D
  div : D → D → D
  log2 : D → D
  lt : D → D → Bool
  printf16 : D → String

/-- One round of the second loop of `CalcEntropyInByte` in `double` arithmetic:
`freq = double(freqList[i]) / fileSize; entropy = entropy + freq * std::log2(freq);`
when `freqList[i] > 0`. -/
def entropyStepD (fp : Doubles) (freqList : List Nat) (fileSize : Nat) (entropy : fp.D)
    (i : Nat) : fp.D :=
  if freqList.getD i 0 > 0 then
    fp.add entropy
      (fp.mul (fp.div (fp.ofNat (freqList.getD i 0)) (fp.ofNat fileSize))
        (fp.log2 (fp.div (fp.ofNat (freqList.getD i 0)) (fp.ofNat fileSize))))
  else entropy

/-- The function `CalcEntropyInByte(filebuf, fsize)` in `double` arithmetic: the
histogram, the sum over `i = 0 .. 255` in that order starting from `0.0`, and
`entropy = -1 * entropy` when `entropy < 0`. -/
def CalcEntropyInByteD (fp : Doubles) (filebuf : List BYTE) : fp.D :=
  if fp.lt ((List.range 256).foldl (entropyStepD fp (freqList filebuf) filebuf.length) fp.zero)
      fp.zero then
    fp.mul fp.negOne
      ((List.range 256).foldl (entropyStepD fp (freqList filebuf) filebuf.length) fp.zero)
  else (List.range 256).foldl (entropyStepD fp (freqList filebuf) filebuf.length) fp.zero

/-- Lines 285-287 of `XT_Finalize`: the text of the comment for the bytes read,
`swprintf_s(ent, "%1.16lf", CalcEntropyInByte(filebuf, actual_size))`. The program
is `XT_Finalize (commentText fp)` for the `double` arithmetic `fp` of its platform. -/
def commentText (fp : Doubles) (filebuf : List BYTE) : String :=
  fp.printf16 (CalcEntropyInByteD fp filebuf)

/-- The arithmetic without rounding: `double` read as the real numbers, `std::log2`
as `Real.logb 2`. -/
noncomputable def exactReals (printf16 : ℝ → String) : Doubles :=
  { D := ℝ
    ofNat := fun n => (n : ℝ)
    zero := 0
    negOne := -1
    add := fun a b => a + b
    mul := fun a b => a * b
    div := fun a b => a / b
    log2 := fun a => Real.logb 2 a
    lt := fun a b => decide (a < b)
    printf16 := printf16 }

/-! ## Concrete states and hosts used in the examples -/

/-- The globals after `XT_Init` succeeded on the startup state: one zeroed record,
which is the current one. -/
def afterInit : Globals :=
  Globals.mk false [XtVolume.zeroed] (some 0) []

/-- The globals after `XT_Prepare` then appended a record and gave it a block of
`item_count` elements. -/
def afterPrepare (item_count : Nat) : Globals :=
  Globals.mk false
    [XtVolume.zeroed, XtVolume.mk (some (List.replicate item_count none)) 0 []] (some 1) []

/-- The globals after the identifiers `ids` were then stored in a block that the
identifiers fill. -/
def afterCollect (ids : List Int) : Globals :=
  Globals.mk false
    [XtVolume.zeroed, XtVolume.mk (some (ids.map some)) ids.length []] (some 1) []

/-- A host that opens every item and reads one zero byte from it, and answers
`XWF_ShouldStop()` with "stop" from iteration `stopFrom` on. -/
def hostStoppingFrom (stopFrom : Nat) : Host :=
  { shouldStop := fun i => decide (stopFrom ≤ i)
    openItem := fun _ _ => true
    mallocOk := fun _ _ => true
    read := fun _ _ => [0]
    itemName := fun _ => "item" }

/-! ## Teardown, the output of the second pass, key shapes, reachable states -/

/-- The function `XT_Done`. With `EXIT` set it returns at its first statement. Otherwise
its loop frees the block and the record of every volume of the chain;
`first_volume` and `current_volume` keep their stale values, on which no entry is
defined any more: that state is `none`. -/
def XT_Done (g : Globals) : Option Globals × Int :=
  if g.EXIT then (some g, 0) else (none, 0)

/-- What the loop of `XT_Finalize` hands to the host for the buffered identifiers
`ids`, the first of them at iteration `i`: `finalizeItem` for each, in order. -/
def itemEvents (entropyText : List BYTE → String) (host : Host) : Nat → List Int → List Event
  | _, [] => []
  | i, id :: ids => finalizeItem entropyText host i id ++ itemEvents entropyText host (i + 1) ids

/-- Whether an event is a comment attached to an item (`XWF_AddComment`). -/
def Event.isComment : Event → Bool
  | Event.comment _ _ => true
  | Event.message _ => false

/-- Follows the spec's words (section 8, scenarios 1-3, as claim C11 puts them): in
discovery order, one comment `(id, text of the entropy of the bytes read)` for each
item whose open succeeds, whose scratch allocation succeeds and whose read returns
more than zero bytes, and nothing for the other items. -/
def expectedComments (entropyText : List BYTE → String) (host : Host) :
    Nat → List Int → List Event
  | _, [] => []
  | i, id :: ids =>
    (if host.openItem i id = true ∧ host.mallocOk i id = true ∧ 0 < (host.read i id).length
      then [Event.comment id (entropyText (host.read i id))] else [])
      ++ expectedComments entropyText host (i + 1) ids

/-- A comma at index `j` of the string with a blank right behind it. -/
def commaSpaceAt (s : List Char) (j : Nat) : Prop :=
  s[j]? = some ',' ∧ s[j + 1]? = some ' '

instance (s : List Char) (j : Nat) : Decidable (commaSpaceAt s j) := by
  unfold commaSpaceAt
  infer_instance

/-- The nine characters named by the `case` labels of the replacement loop:
backslash, slash, colon, asterisk, question mark, double quote, less-than,
greater-than and the vertical bar. -/
def reservedChars : List Char :=
  [Char.ofNat 92, '/', ':', '*', '?', Char.ofNat 34, '<', '>', '|']

/-- The globals the program can be in after a successful `XT_Init` (one that returns
`0`, from whatever globals) followed by any sequence of `XT_Prepare`,
`XT_ProcessItem` and `XT_Finalize` calls that return. -/
inductive Reachable (api : XTension) : Globals → Prop where
  | init (version nFlags : Nat) (caseProp : Int) (firstEvObj : Bool) (g0 g : Globals) :
      XT_Init api version nFlags caseProp firstEvObj g0 = (g, 0) → Reachable api g
  | prepare (longname shortname : List Char) (item_count nOpType : Nat) (g g1 : Globals)
      (r : Int) :
      Reachable api g →
      XT_Prepare api longname shortname item_count g nOpType = Except.ok (g1, r) →
      Reachable api g1
  | collect (nItemID : Int) (g g1 : Globals) (r : Int) :
      Reachable api g → XT_ProcessItem g nItemID = Except.ok (g1, r) → Reachable api g1
  | finish (entropyText : List BYTE → String) (host : Host) (g g1 : Globals) (r : Int) :
      Reachable api g → XT_Finalize entropyText host g = Except.ok (g1, r) → Reachable api g1

/-- The globals after an `XT_Init` that met a version of X-Ways Forensics below
`MIN_VER`: `EXIT` is set, there is no record. -/
def afterFailedInit : Globals :=
  Globals.mk true [] none
    [Event.message
      "XT_ENTROPY: The Version of X-Ways Forensics must be v.1990 or Later. Exiting..."]

/-- A host whose second item cannot be opened, whose third item gets no scratch
block and whose fourth item reads zero bytes; the other items read the two bytes
`0, 1`. It answers `XWF_ShouldStop()` at the top of iteration `i` with `shouldStop i`. -/
def hostWithFailures (shouldStop : Nat → Bool) : Host :=
  { shouldStop := shouldStop
    openItem := fun i _ => decide (i ≠ 1)
    mallocOk := fun i _ => decide (i ≠ 2)
    read := fun i _ => if i = 3 then [] else [0, 1]
    itemName := fun _ => "item" }

/-! ## The histogram -/

theorem getD_replicate_zero (n i : Nat) : (List.replicate n 0).getD i 0 = 0 := by
  rw [List.getD_eq_getElem?_getD, List.getElem?_replicate]
  split <;> rfl

theorem countStep_length (fl : List Nat) (b : BYTE) : (countStep fl b).length = fl.length := by
  simp [countStep]

theorem freqList_append_singleton (l : List BYTE) (b : BYTE) :
    freqList (l ++ [b]) = countStep (freqList l) b := by
  unfold freqList
  rw [List.foldl_append]
  rfl

theorem freqList_length (l : List BYTE) : (freqList l).length = 256 := by
  induction l using List.reverseRecOn with
  | nil => exact List.length_replicate 256 0
  | append_singleton l b ih => rw [freqList_append_singleton, countStep_length, ih]

/-- Every counter holds the number of occurrences of its byte value, modulo `2 ^ 32`. -/
theorem freqList_getD_mod (l : List BYTE) (v : BYTE) :
    (freqList l).getD v.val 0 = l.count v % 4294967296 := by
  induction l using List.reverseRecOn with
  | nil =>
    show (List.replicate 256 0).getD v.val 0 = _
    rw [getD_replicate_zero]
    rfl
  | append_singleton l b ih =>
    rw [freqList_append_singleton, countStep]
    have hlen := freqList_length l
    by_cases hvb : v = b
    · subst hvb
      rw [List.getD_eq_getElem?_getD, List.getElem?_set_self (by rw [hlen]; exact v.isLt)]
      simp only [Option.getD_some]
      rw [ih, List.count_append]
      simp [Nat.add_mod]
    · have hne : b.val ≠ v.val := fun h => hvb (Fin.ext h.symm)
      rw [List.getD_eq_getElem?_getD, List.getElem?_set_ne hne, ← List.getD_eq_getElem?_getD, ih,
        List.count_append]
      simp [List.count_singleton, hvb]

/-- On a buffer a `DWORD` can measure no counter wraps: each holds the exact count. -/
theorem freqList_getD (l : List BYTE) (h32 : l.length < 4294967296) (v : BYTE) :
    (freqList l).getD v.val 0 = l.count v := by
  rw [freqList_getD_mod]
  exact Nat.mod_eq_of_lt (lt_of_le_of_lt (List.count_le_length v l) h32)

/-! ## The accumulated sum -/

theorem entropyStep_eq (fl : List Nat) (n : Nat) (e : ℝ) (i : Nat) :
    entropyStep fl n e i = e + term (fl.getD i 0) n := by
  unfold entropyStep term
  split <;> simp

theorem foldl_entropyStep (fl : List Nat) (n : Nat) (k : Nat) (e : ℝ) :
    (List.range k).foldl (entropyStep fl n) e
      = e + ∑ i in Finset.range k, term (fl.getD i 0) n := by
  induction k with
  | zero => simp
  | succ k ih =>
    rw [List.range_succ, List.foldl_append, ih, Finset.sum_range_succ]
    simp only [List.foldl_cons, List.foldl_nil, entropyStep_eq]
    ring

theorem entropyAccum_eq_sum (l : List BYTE) (h32 : l.length < 4294967296) :
    entropyAccum l = ∑ v : BYTE, term (l.count v) l.length := by
  unfold entropyAccum
  rw [foldl_entropyStep, zero_add, Finset.sum_range]
  exact Finset.sum_congr rfl (fun v _ => by rw [freqList_getD l h32 v])

theorem sum_count (l : List BYTE) : ∑ v : BYTE, l.count v = l.length := by
  have h := Multiset.sum_count_eq_card (s := Finset.univ) (m := (l : Multiset BYTE)) (by simp)
  simpa using h

theorem sum_prob (l : List BYTE) (h0 : 0 < l.length) :
    ∑ v : BYTE, ((l.count v : ℝ) / (l.length : ℝ)) = 1 := by
  have hn : (l.length : ℝ) ≠ 0 := by exact_mod_cast (Nat.pos_iff_ne_zero.mp h0)
  rw [← Finset.sum_div, ← Nat.cast_sum, sum_count, div_self hn]

theorem term_nonpos (c n : Nat) (hcn : c ≤ n) : term c n ≤ 0 := by
  unfold term
  split
  · next hc =>
    have hn : (0:ℝ) < n := by exact_mod_cast lt_of_lt_of_le hc hcn
    have hp0 : (0:ℝ) ≤ (c:ℝ)/n := by positivity
    have hp1 : (c:ℝ)/n ≤ 1 := by rw [div_le_one hn]; exact_mod_cast hcn
    exact mul_nonpos_of_nonneg_of_nonpos hp0 (Real.logb_nonpos (by norm_num) hp0 hp1)
  · exact le_refl 0

theorem term_eq_zero_iff (c n : Nat) (hcn : c ≤ n) : term c n = 0 ↔ c = 0 ∨ c = n := by
  constructor
  · intro h
    by_contra hne
    push_neg at hne
    obtain ⟨hc0, hcn2⟩ := hne
    have hc : 0 < c := Nat.pos_of_ne_zero hc0
    have hlt : c < n := lt_of_le_of_ne hcn hcn2
    have hn : (0:ℝ) < n := by exact_mod_cast lt_trans hc hlt
    have hp0 : (0:ℝ) < (c:ℝ)/n := by positivity
    have hp1 : (c:ℝ)/n < 1 := by rw [div_lt_one hn]; exact_mod_cast hlt
    have hlog : Real.logb 2 ((c:ℝ)/n) < 0 := Real.logb_neg (by norm_num) hp0 hp1
    have hneg : term c n < 0 := by
      unfold term
      rw [if_pos hc]
      exact mul_neg_of_pos_of_neg hp0 hlog
    exact absurd h (ne_of_lt hneg)
  · rintro (rfl | rfl)
    · simp [term]
    · unfold term
      split
      · next hc =>
        have hn : (c:ℝ) ≠ 0 := by exact_mod_cast (Nat.pos_iff_ne_zero.mp hc)
        rw [div_self hn, Real.logb_one, mul_zero]
      · rfl

/-- The accumulated sum of `CalcEntropyInByte` is never positive. -/
theorem entropyAccum_nonpos (l : List BYTE) (h32 : l.length < 4294967296) :
    entropyAccum l ≤ 0 := by
  rw [entropyAccum_eq_sum l h32]
  exact Finset.sum_nonpos (fun v _ => term_nonpos _ _ (List.count_le_length v l))

theorem CalcEntropyInByte_eq_neg (l : List BYTE) (h32 : l.length < 4294967296) :
    CalcEntropyInByte l = - entropyAccum l := by
  unfold CalcEntropyInByte
  split
  · ring
  · next h =>
    have h2 := entropyAccum_nonpos l h32
    have h3 : entropyAccum l = 0 := le_antisymm h2 (not_lt.mp h)
    rw [h3, neg_zero]

/-! ## The distance of the accumulated sum from `-8`

For a probability `p > 0` the quantity `p * log2 p + 8 * p - (p - 1/256) / ln 2` is
`p * (ln (256 * p) - 1 + 1 / (256 * p)) / ln 2`, which is nonnegative and vanishes
only at `p = 1/256` (`ln x ≤ x - 1`, strictly unless `x = 1`). Summed over the 256
byte values the correction terms cancel and `entropyAccum + 8` remains. -/

theorem log_inv_256_mul (p : ℝ) (hp : 0 < p) :
    Real.log (1 / (256 * p)) = -(8 * Real.log 2 + Real.log p) := by
  rw [one_div, Real.log_inv, Real.log_mul (by norm_num) hp.ne',
    show (256:ℝ) = 2 ^ 8 by norm_num, Real.log_pow]
  push_cast
  ring

theorem gapR_eq (p : ℝ) :
    p * Real.logb 2 p + 8 * p - (p - 1/256) / Real.log 2
      = (p * (8 * Real.log 2 + Real.log p) - p + 1/256) / Real.log 2 := by
  have hL : Real.log 2 ≠ 0 := (Real.log_pos (by norm_num)).ne'
  unfold Real.logb
  field_simp
  ring

theorem gapR_nonneg (p : ℝ) (hp : 0 < p) :
    0 ≤ p * Real.logb 2 p + 8 * p - (p - 1/256) / Real.log 2 := by
  have hL : 0 < Real.log 2 := Real.log_pos (by norm_num)
  rw [gapR_eq]
  apply div_nonneg _ hL.le
  have hx : 0 < 1 / (256 * p) := by positivity
  have h1 := Real.log_le_sub_one_of_pos hx
  rw [log_inv_256_mul p hp] at h1
  have h2 := mul_le_mul_of_nonneg_left h1 hp.le
  have h3 : p * (1 / (256 * p) - 1) = 1/256 - p := by
    field_simp
    ring
  rw [h3] at h2
  linarith

theorem gapR_pos (p : ℝ) (hp : 0 < p) (hne : p ≠ 1/256) :
    0 < p * Real.logb 2 p + 8 * p - (p - 1/256) / Real.log 2 := by
  have hL : 0 < Real.log 2 := Real.log_pos (by norm_num)
  rw [gapR_eq]
  apply div_pos _ hL
  have hx : 0 < 1 / (256 * p) := by positivity
  have hx1 : 1 / (256 * p) ≠ 1 := by
    intro h
    apply hne
    field_simp at h
    field_simp
    linarith
  have h1 := Real.log_lt_sub_one_of_pos hx hx1
  rw [log_inv_256_mul p hp] at h1
  have h2 := mul_lt_mul_of_pos_left h1 hp
  have h3 : p * (1 / (256 * p) - 1) = 1/256 - p := by
    field_simp
    ring
  rw [h3] at h2
  linarith

theorem gapR_zero : (1/256 : ℝ) * Real.logb 2 (1/256) + 8 * (1/256) - ((1/256 : ℝ) - 1/256) / Real.log 2 = 0 := by
  have h : Real.logb 2 (1/256 : ℝ) = -8 := by
    rw [one_div, Real.logb_inv, show (256:ℝ) = 2 ^ 8 by norm_num, Real.logb_pow,
      Real.logb_self_eq_one (by norm_num)]
    norm_num
  rw [h]
  norm_num

theorem gap_nonneg (c n : Nat) : 0 ≤ gap c n := by
  have hL : 0 < Real.log 2 := Real.log_pos (by norm_num)
  unfold gap term
  split
  · next hc =>
    rcases Nat.eq_zero_or_pos n with hn | hn
    · subst hn
      simp
      exact div_nonpos_of_nonpos_of_nonneg (by norm_num) hL.le
    · have hp : (0:ℝ) < (c:ℝ) / n := by
        have : (0:ℝ) < c := by exact_mod_cast hc
        have : (0:ℝ) < n := by exact_mod_cast hn
        positivity
      exact gapR_nonneg _ hp
  · next hc =>
    have hc0 : c = 0 := by omega
    subst hc0
    simp
    exact div_nonpos_of_nonpos_of_nonneg (by norm_num) hL.le

theorem gap_eq_zero_iff (c n : Nat) (hn : 0 < n) : gap c n = 0 ↔ 256 * c = n := by
  have hL : 0 < Real.log 2 := Real.log_pos (by norm_num)
  have hnR : (0:ℝ) < n := by exact_mod_cast hn
  rcases Nat.eq_zero_or_pos c with hc | hc
  · subst hc
    constructor
    · intro h
      exfalso
      have : 0 < gap 0 n := by
        unfold gap term
        simp
        exact div_neg_of_neg_of_pos (by norm_num) hL
      exact absurd h this.ne'
    · intro h
      omega
  · have hcR : (0:ℝ) < c := by exact_mod_cast hc
    have hp : (0:ℝ) < (c:ℝ) / n := by positivity
    have hgap : gap c n = (c:ℝ)/n * Real.logb 2 ((c:ℝ)/n) + 8 * ((c:ℝ)/n)
        - ((c:ℝ)/n - 1/256) / Real.log 2 := by
      unfold gap term
      rw [if_pos hc]
    have hiff : (c:ℝ)/n = 1/256 ↔ 256 * c = n := by
      rw [div_eq_div_iff hnR.ne' (by norm_num)]
      constructor
      · intro h
        have h2 : ((256 * c : Nat) : ℝ) = (n : ℝ) := by push_cast; linarith
        exact_mod_cast h2
      · intro h
        have h2 : ((256 * c : Nat) : ℝ) = (n : ℝ) := by exact_mod_cast h
        push_cast at h2
        linarith
    rw [hgap, ← hiff]
    constructor
    · intro h
      by_contra hne
      exact absurd h (gapR_pos _ hp hne).ne'
    · intro h
      rw [h]
      exact gapR_zero

theorem sum_gap (l : List BYTE) (h0 : 0 < l.length) (h32 : l.length < 4294967296) :
    ∑ v : BYTE, gap (l.count v) l.length = entropyAccum l + 8 := by
  rw [entropyAccum_eq_sum l h32]
  unfold gap
  rw [Finset.sum_sub_distrib, Finset.sum_add_distrib, ← Finset.mul_sum, sum_prob l h0,
    ← Finset.sum_div, Finset.sum_sub_distrib, sum_prob l h0, Finset.sum_const, Finset.card_univ,
    Fintype.card_fin]
  norm_num

theorem entropyAccum_add_eight_nonneg (l : List BYTE) (h0 : 0 < l.length)
    (h32 : l.length < 4294967296) : 0 ≤ entropyAccum l + 8 := by
  rw [← sum_gap l h0 h32]
  exact Finset.sum_nonneg (fun v _ => gap_nonneg _ _)

theorem entropyAccum_eq_neg_eight_iff (l : List BYTE) (h0 : 0 < l.length)
    (h32 : l.length < 4294967296) :
    entropyAccum l = -8 ↔ ∀ v : BYTE, 256 * l.count v = l.length := by
  have hsum := sum_gap l h0 h32
  have hz := Finset.sum_eq_zero_iff_of_nonneg
    (s := (Finset.univ : Finset BYTE)) (f := fun v => gap (l.count v) l.length)
    (fun v _ => gap_nonneg _ _)
  constructor
  · intro h v
    have h1 : ∑ v : BYTE, gap (l.count v) l.length = 0 := by rw [hsum, h]; norm_num
    exact (gap_eq_zero_iff _ _ h0).mp (hz.mp h1 v (Finset.mem_univ v))
  · intro h
    have h1 : ∑ v : BYTE, gap (l.count v) l.length = 0 :=
      hz.mpr (fun v _ => (gap_eq_zero_iff _ _ h0).mpr (h v))
    rw [hsum] at h1
    linarith

theorem entropyAccum_eq_zero_iff (l : List BYTE) (h32 : l.length < 4294967296) :
    entropyAccum l = 0 ↔ ∀ v : BYTE, l.count v = 0 ∨ l.count v = l.length := by
  rw [entropyAccum_eq_sum l h32]
  have hz := Finset.sum_eq_zero_iff_of_nonneg
    (s := (Finset.univ : Finset BYTE)) (f := fun v => - term (l.count v) l.length)
    (fun v _ => neg_nonneg.mpr (term_nonpos _ _ (List.count_le_length v l)))
  rw [Finset.sum_neg_distrib, neg_eq_zero] at hz
  rw [hz]
  constructor
  · intro h v
    have h1 := h v (Finset.mem_univ v)
    rw [neg_eq_zero] at h1
    exact (term_eq_zero_iff _ _ (List.count_le_length v l)).mp h1
  · intro h v _
    rw [neg_eq_zero]
    exact (term_eq_zero_iff _ _ (List.count_le_length v l)).mpr (h v)

theorem freqList_perm {l l2 : List BYTE} (h : l.Perm l2) : freqList l = freqList l2 := by
  apply List.ext_getElem?
  intro i
  by_cases hi : i < 256
  · have h1 := freqList_getD_mod l ⟨i, hi⟩
    have h2 := freqList_getD_mod l2 ⟨i, hi⟩
    rw [List.getD_eq_getElem?_getD] at h1 h2
    have hl1 : i < (freqList l).length := by rw [freqList_length]; exact hi
    have hl2 : i < (freqList l2).length := by rw [freqList_length]; exact hi
    rw [List.getElem?_eq_getElem hl1] at h1 ⊢
    rw [List.getElem?_eq_getElem hl2] at h2 ⊢
    simp only [Option.getD_some] at h1 h2
    rw [h1, h2, h.count_eq]
  · have hl1 : (freqList l).length ≤ i := by rw [freqList_length]; omega
    have hl2 : (freqList l2).length ≤ i := by rw [freqList_length]; omega
    rw [List.getElem?_eq_none hl1, List.getElem?_eq_none hl2]

theorem sum_term_eq_toFinset (l : List BYTE) :
    ∑ v : BYTE, term (l.count v) l.length
      = ∑ v in l.toFinset, ((l.count v : ℝ) / (l.length : ℝ))
          * Real.logb 2 ((l.count v : ℝ) / (l.length : ℝ)) := by
  unfold term
  rw [← Finset.sum_filter]
  apply Finset.sum_congr
  · ext v
    simp [List.count_pos_iff]
  · intro v _
    rfl

/-! ## The claims about `CalcEntropyInByte` -/

/-- C1: for a buffer of `DWORD` length `n` (in particular for every `n > 0`),
`CalcEntropyInByte` returns the Shannon entropy `-Σ p_v log2(p_v)` over the byte
values that occur, with `p_v = count_v / n`; the accumulated sum is never positive,
so the conditional sign flip is plain negation. -/
theorem CalcEntropyInByte_eq_shannonEntropy (filebuf : List BYTE)
    (h32 : filebuf.length < 4294967296) :
    CalcEntropyInByte filebuf = shannonEntropy filebuf
      ∧ entropyAccum filebuf ≤ 0
      ∧ CalcEntropyInByte filebuf = - entropyAccum filebuf := by
  refine ⟨?_, entropyAccum_nonpos filebuf h32, CalcEntropyInByte_eq_neg filebuf h32⟩
  rw [CalcEntropyInByte_eq_neg filebuf h32, entropyAccum_eq_sum filebuf h32,
    sum_term_eq_toFinset]
  rfl

theorem CalcEntropyInByte_eq_shannonEntropy_witness :
    [(0 : BYTE), 1].length < 4294967296
      ∧ (CalcEntropyInByte [(0 : BYTE), 1] = shannonEntropy [(0 : BYTE), 1]
        ∧ entropyAccum [(0 : BYTE), 1] ≤ 0
        ∧ CalcEntropyInByte [(0 : BYTE), 1] = - entropyAccum [(0 : BYTE), 1]) :=
  ⟨by decide, CalcEntropyInByte_eq_shannonEntropy [(0 : BYTE), 1] (by decide)⟩

/-- C2: for every non-empty buffer (of `DWORD` length) `CalcEntropyInByte` returns a
value in the closed interval `[0, 8]`. -/
theorem CalcEntropyInByte_mem_Icc (filebuf : List BYTE)
    (h0 : 0 < filebuf.length) (h32 : filebuf.length < 4294967296) :
    0 ≤ CalcEntropyInByte filebuf ∧ CalcEntropyInByte filebuf ≤ 8 := by
  rw [CalcEntropyInByte_eq_neg filebuf h32]
  have h1 := entropyAccum_nonpos filebuf h32
  have h2 := entropyAccum_add_eight_nonneg filebuf h0 h32
  constructor <;> linarith

theorem CalcEntropyInByte_mem_Icc_witness :
    0 < [(7 : BYTE), 7, 9].length ∧ [(7 : BYTE), 7, 9].length < 4294967296
      ∧ (0 ≤ CalcEntropyInByte [(7 : BYTE), 7, 9] ∧ CalcEntropyInByte [(7 : BYTE), 7, 9] ≤ 8) :=
  ⟨by decide, by decide, CalcEntropyInByte_mem_Icc [(7 : BYTE), 7, 9] (by decide) (by decide)⟩

theorem count_replicate_zero_or (N : Nat) (b v : BYTE) :
    (List.replicate N b).count v = 0 ∨ (List.replicate N b).count v = (List.replicate N b).length := by
  rw [List.count_replicate, List.length_replicate]
  by_cases h : b = v
  · right; simp [h]
  · left; simp [h]

/-- C3: for a non-empty buffer (of `DWORD` length) `CalcEntropyInByte` returns `0`
exactly when all bytes of the buffer are identical; in particular `N ≥ 1` copies of
one byte give `0`. -/
theorem CalcEntropyInByte_eq_zero_iff (filebuf : List BYTE)
    (h0 : 0 < filebuf.length) (h32 : filebuf.length < 4294967296) :
    (CalcEntropyInByte filebuf = 0 ↔ ∀ x ∈ filebuf, ∀ y ∈ filebuf, x = y)
      ∧ ∀ (N : Nat) (b : BYTE), 1 ≤ N → N < 4294967296 →
          CalcEntropyInByte (List.replicate N b) = 0 := by
  constructor
  · rw [CalcEntropyInByte_eq_neg filebuf h32, neg_eq_zero, entropyAccum_eq_zero_iff filebuf h32]
    constructor
    · intro h x hx y hy
      by_contra hxy
      have hcx : filebuf.count x = filebuf.length := by
        rcases h x with h1 | h1
        · exact absurd (List.count_pos_iff.mpr hx) (by omega)
        · exact h1
      have hcy : filebuf.count y = filebuf.length := by
        rcases h y with h1 | h1
        · exact absurd (List.count_pos_iff.mpr hy) (by omega)
        · exact h1
      have hsum := sum_count filebuf
      have hle : filebuf.count x + filebuf.count y ≤ ∑ v : BYTE, filebuf.count v := by
        have hsub : ({x, y} : Finset BYTE) ⊆ Finset.univ := Finset.subset_univ _
        have h2 := Finset.sum_le_sum_of_subset (f := fun v => filebuf.count v) hsub
        rw [Finset.sum_pair hxy] at h2
        exact h2
      omega
    · intro h v
      by_cases hv : v ∈ filebuf
      · right
        rw [List.count_eq_length]
        intro y hy
        exact h v hv y hy
      · left
        exact List.count_eq_zero_of_not_mem hv
  · intro N b _ hN
    have hlen : (List.replicate N b).length < 4294967296 := by
      rw [List.length_replicate]; exact hN
    rw [CalcEntropyInByte_eq_neg _ hlen, neg_eq_zero, entropyAccum_eq_zero_iff _ hlen]
    exact count_replicate_zero_or N b

theorem CalcEntropyInByte_eq_zero_iff_witness :
    0 < [(65 : BYTE), 65, 65].length ∧ [(65 : BYTE), 65, 65].length < 4294967296
      ∧ ((CalcEntropyInByte [(65 : BYTE), 65, 65] = 0
            ↔ ∀ x ∈ [(65 : BYTE), 65, 65], ∀ y ∈ [(65 : BYTE), 65, 65], x = y)
        ∧ ∀ (N : Nat) (b : BYTE), 1 ≤ N → N < 4294967296 →
            CalcEntropyInByte (List.replicate N b) = 0) :=
  ⟨by decide, by decide,
    CalcEntropyInByte_eq_zero_iff [(65 : BYTE), 65, 65] (by decide) (by decide)⟩

/-- The value 8 in the arithmetic without rounding: for a non-empty buffer (of
`DWORD` length) the exact-real `CalcEntropyInByte` is `8` exactly when all 256 byte
values occur in it, equally often; a buffer holding each byte value exactly `k ≥ 1`
times has length `256 * k` and gives `8`. This is a fact of the real-number reading
only: it does not speak of the rounded `double` the program returns. -/
theorem CalcEntropyInByte_eq_eight_iff (filebuf : List BYTE)
    (h0 : 0 < filebuf.length) (h32 : filebuf.length < 4294967296) :
    (CalcEntropyInByte filebuf = 8
        ↔ (∀ v : BYTE, v ∈ filebuf) ∧ ∀ v w : BYTE, filebuf.count v = filebuf.count w)
      ∧ ∀ k : Nat, 1 ≤ k → (∀ v : BYTE, filebuf.count v = k) →
          filebuf.length = 256 * k ∧ CalcEntropyInByte filebuf = 8 := by
  have hsum := sum_count filebuf
  have key : CalcEntropyInByte filebuf = 8 ↔ ∀ v : BYTE, 256 * filebuf.count v = filebuf.length := by
    rw [CalcEntropyInByte_eq_neg filebuf h32, ← entropyAccum_eq_neg_eight_iff filebuf h0 h32]
    constructor <;> intro h <;> linarith
  have huni : ∀ c : Nat, (∀ v : BYTE, filebuf.count v = c) → filebuf.length = 256 * c := by
    intro c hc
    rw [← hsum, Finset.sum_congr rfl (fun v _ => hc v), Finset.sum_const, Finset.card_univ,
      Fintype.card_fin, smul_eq_mul]
  constructor
  · rw [key]
    constructor
    · intro h
      constructor
      · intro v
        apply List.count_pos_iff.mp
        have := h v
        omega
      · intro v w
        have h1 := h v
        have h2 := h w
        omega
    · rintro ⟨_, h⟩ v
      have := huni (filebuf.count v) (fun w => h w v)
      omega
  · intro k _ hk
    refine ⟨huni k hk, key.mpr (fun v => ?_)⟩
    rw [hk v, huni k hk]

/-- C5: `CalcEntropyInByte` is invariant under reordering the bytes: a permutation
of the buffer has the same histogram, so the same result. -/
theorem CalcEntropyInByte_perm (b b2 : List BYTE) (h : b2.Perm b) :
    CalcEntropyInByte b2 = CalcEntropyInByte b := by
  unfold CalcEntropyInByte entropyAccum
  rw [freqList_perm h, h.length_eq]

theorem CalcEntropyInByte_perm_witness :
    [(1 : BYTE), 2, 2].Perm [(2 : BYTE), 1, 2]
      ∧ CalcEntropyInByte [(1 : BYTE), 2, 2] = CalcEntropyInByte [(2 : BYTE), 1, 2] :=
  ⟨List.Perm.swap 2 1 [2], CalcEntropyInByte_perm [(2 : BYTE), 1, 2] [(1 : BYTE), 2, 2]
    (List.Perm.swap 2 1 [2])⟩


/-! ## The registry -/

theorem findVolume_bounds (name : List Char) :
    ∀ (vs : List XtVolume) (n i : Nat), findVolume name vs n = some i → n ≤ i ∧ i < n + vs.length := by
  intro vs
  induction vs with
  | nil => intro n i h; simp [findVolume] at h
  | cons v rest ih =>
    intro n i h
    unfold findVolume at h
    split at h
    · simp only [Option.some.injEq] at h
      subst h
      simp
    · have := ih (n + 1) i h
      simp only [List.length_cons]
      omega

/-- The function `SetCurrentVolume` leaves `current_volume` at a record of the chain and touches
neither `EXIT` nor the output. -/
theorem SetCurrentVolume_current (g : Globals) (name : List Char) :
    ∃ i, (SetCurrentVolume g name).1.current_volume = some i
      ∧ i < (SetCurrentVolume g name).1.volumes.length
      ∧ (SetCurrentVolume g name).1.EXIT = g.EXIT
      ∧ (SetCurrentVolume g name).1.out = g.out := by
  unfold SetCurrentVolume
  split
  · next i h =>
    have hb := findVolume_bounds name g.volumes 0 i h
    exact ⟨i, rfl, by simpa using hb.2, rfl, rfl⟩
  · exact ⟨g.volumes.length, rfl, by simp, rfl, rfl⟩

/-- Lines 205-243 of `XT_Prepare` always return: the current record then has a block
of `item_count` elements, none of them stored, and `file_count = 0`; the value
returned is `return_value` when `SetCurrentVolume` found the name and
`XT_PREPARE_CALLPI` when it appended a record. -/
theorem prepareVolume_ok (api : XTension) (longname shortname : List Char) (item_count : Nat)
    (g : Globals) (return_value : Int) :
    ∃ g2 i v, prepareVolume api longname shortname item_count g return_value
        = Except.ok (g2, if (SetCurrentVolume g (normalizeKey (deriveKey longname shortname))).2
            then return_value else (api.XT_PREPARE_CALLPI : Int))
      ∧ g2.EXIT = g.EXIT ∧ g2.out = g.out
      ∧ g2.current_volume = some i ∧ g2.volumes[i]? = some v
      ∧ v.file_ids = some (List.replicate item_count none) ∧ v.file_count = 0 := by
  obtain ⟨i, hi, hlt, hE, hout⟩ :=
    SetCurrentVolume_current g (normalizeKey (deriveKey longname shortname))
  unfold prepareVolume
  generalize SetCurrentVolume g (normalizeKey (deriveKey longname shortname)) = r at hi hlt hE hout
  obtain ⟨g1, ex⟩ := r
  simp only at hi hlt hE hout ⊢
  have hcur : g1.current = some (g1.volumes[i]) := by
    unfold Globals.current
    rw [hi]
    exact List.getElem?_eq_getElem hlt
  rw [hcur]
  simp only
  refine ⟨g1.setCurrent { g1.volumes[i] with
      file_ids := some (List.replicate item_count none), file_count := 0 }, i,
    { g1.volumes[i] with file_ids := some (List.replicate item_count none), file_count := 0 },
    ?_, ?_, ?_, ?_, ?_, rfl, rfl⟩
  · cases ex <;> simp
  · simp [Globals.setCurrent, hi, hE]
  · simp [Globals.setCurrent, hi, hout]
  · simp [Globals.setCurrent, hi]
  · simp [Globals.setCurrent, hi, List.getElem?_set_self hlt]


/-! ## Collecting -/

theorem take_succ_set {α : Type} (a : α) :
    ∀ (l : List α) (k : Nat), k < l.length → (l.set k a).take (k + 1) = l.take k ++ [a] := by
  intro l
  induction l with
  | nil => intro k h; simp at h
  | cons x xs ih =>
    intro k h
    cases k with
    | zero => simp
    | succ k =>
      simp only [List.length_cons, Nat.add_lt_add_iff_right] at h
      simp [ih k h]

theorem set_eq_of_getElem {α : Type} (l : List α) (i : Nat) (a : α) (h : l[i]? = some a) :
    l.set i a = l := by
  apply List.ext_getElem?
  intro j
  by_cases hj : i = j
  · subst hj
    rw [List.getElem?_set_self', h]
    simp
  · rw [List.getElem?_set_ne hj]

theorem setCurrent_eq (g : Globals) (i : Nat) (v : XtVolume) (hc : g.current_volume = some i) :
    g.setCurrent v = { g with volumes := g.volumes.set i v } := by
  unfold Globals.setCurrent
  rw [hc]

theorem current_eq (g : Globals) (i : Nat) (hc : g.current_volume = some i) :
    g.current = g.volumes[i]? := by
  unfold Globals.current
  rw [hc]

/-- With room in the block, `XT_ProcessItem` stores the identifier at index
`file_count`, adds one to `file_count` and returns `0`. -/
theorem XT_ProcessItem_store (g : Globals) (i : Nat) (v : XtVolume)
    (block : List (Option Int)) (k : Nat) (id : Int)
    (hE : g.EXIT = false) (hc : g.current_volume = some i) (hv : g.volumes[i]? = some v)
    (hb : v.file_ids = some block) (hk : v.file_count = (k : Int)) (hroom : k < block.length) :
    XT_ProcessItem g id = Except.ok (g.setCurrent
      { v with file_count := (k : Int) + 1, file_ids := some (block.set k (some id)) }, 0) := by
  have hcond : 0 ≤ v.file_count ∧ v.file_count < block.length := by
    rw [hk]
    exact ⟨Int.natCast_nonneg k, by exact_mod_cast hroom⟩
  unfold XT_ProcessItem
  rw [if_neg (by simp [hE]), hc]
  simp only
  rw [current_eq g i hc, hv]
  simp only
  rw [hb]
  simp only
  rw [if_pos hcond, hk]
  rfl

/-- With the block full, `XT_ProcessItem` still performs the store: it addresses the
element behind the block. -/
theorem XT_ProcessItem_full (g : Globals) (i : Nat) (v : XtVolume)
    (block : List (Option Int)) (k : Nat) (id : Int)
    (hE : g.EXIT = false) (hc : g.current_volume = some i) (hv : g.volumes[i]? = some v)
    (hb : v.file_ids = some block) (hk : v.file_count = (k : Int)) (hfull : block.length ≤ k) :
    XT_ProcessItem g id = Except.error (Fault.outOfBounds k block.length) := by
  have hcond : ¬ (0 ≤ v.file_count ∧ v.file_count < block.length) := by
    rw [hk]
    intro h
    have : k < block.length := by exact_mod_cast h.2
    omega
  unfold XT_ProcessItem
  rw [if_neg (by simp [hE]), hc]
  simp only
  rw [current_eq g i hc, hv]
  simp only
  rw [hb]
  simp only
  rw [if_neg hcond, hk]

/-- A run of `XT_ProcessItem` calls that fits the block stores the identifiers at
consecutive indices from `file_count` on and changes nothing else. -/
theorem collectAll_room (ids : List Int) :
    ∀ (g : Globals) (i : Nat) (v : XtVolume) (block : List (Option Int)) (k : Nat),
      g.EXIT = false → g.current_volume = some i → g.volumes[i]? = some v →
      v.file_ids = some block → v.file_count = (k : Int) → k + ids.length ≤ block.length →
      collectAll g ids = Except.ok (g.setCurrent
        { v with file_count := ((k + ids.length : Nat) : Int),
                 file_ids := some (block.take k ++ ids.map some ++ block.drop (k + ids.length)) }) := by
  induction ids with
  | nil =>
    intro g i v block k _ hc hv hb hk _
    obtain ⟨fi, fc, nm⟩ := v
    simp only at hb hk
    subst hb hk
    rw [setCurrent_eq g i _ hc]
    simp only [List.length_nil, List.map_nil, Nat.add_zero, List.append_nil,
      List.take_append_drop]
    rw [set_eq_of_getElem g.volumes i _ hv]
    rfl
  | cons id ids ih =>
    intro g i v block k hE hc hv hb hk hroom
    simp only [List.length_cons] at hroom
    have hlt : k < block.length := by omega
    have hi : i < g.volumes.length := by
      by_contra hcon
      rw [List.getElem?_eq_none (by omega)] at hv
      exact absurd hv (by simp)
    unfold collectAll
    rw [XT_ProcessItem_store g i v block k id hE hc hv hb hk hlt]
    simp only
    have hE1 : (g.setCurrent
        (XtVolume.mk (some (block.set k (some id))) ((k : Int) + 1) v.name)).EXIT = false := by
      rw [setCurrent_eq g i _ hc]; exact hE
    have hc1 : (g.setCurrent
        (XtVolume.mk (some (block.set k (some id))) ((k : Int) + 1) v.name)).current_volume
          = some i := by
      rw [setCurrent_eq g i _ hc]; exact hc
    have hv1 : (g.setCurrent
        (XtVolume.mk (some (block.set k (some id))) ((k : Int) + 1) v.name)).volumes[i]?
          = some (XtVolume.mk (some (block.set k (some id))) ((k : Int) + 1) v.name) := by
      rw [setCurrent_eq g i _ hc]
      exact List.getElem?_set_self hi
    rw [ih _ i _ (block.set k (some id)) (k + 1) hE1 hc1 hv1 rfl
      (by push_cast; rfl) (by rw [List.length_set]; omega)]
    rw [setCurrent_eq _ i _ hc1, setCurrent_eq g i _ hc, setCurrent_eq g i _ hc]
    simp only [List.set_set, List.length_cons, List.map_cons]
    rw [take_succ_set (some id) block k hlt,
      List.drop_set_of_lt (some id) block (show k < k + 1 + ids.length by omega)]
    have e1 : k + 1 + ids.length = k + (ids.length + 1) := by omega
    rw [e1]
    simp


/-! ## The claims about the registry and the phase entries -/

/-- C6, the code at the failing input: after a successful `XT_Init`,
`SetCurrentVolume` called twice with the name `"A"` returns `FALSE` both times; each
call appends a record and the second call selects another record than the first. -/
theorem SetCurrentVolume_same_name_twice :
    XT_Init xways 2000 xways.XT_INIT_XWF 0 true Globals.startup = (afterInit, 0)
      ∧ SetCurrentVolume afterInit ['A']
          = (Globals.mk false [XtVolume.zeroed, XtVolume.zeroed] (some 1) [], false)
      ∧ SetCurrentVolume (Globals.mk false [XtVolume.zeroed, XtVolume.zeroed] (some 1) []) ['A']
          = (Globals.mk false [XtVolume.zeroed, XtVolume.zeroed, XtVolume.zeroed] (some 2) [],
              false) :=
  ⟨rfl, rfl, rfl⟩

/-- C7, the code at the failing input: after a successful `XT_Init`, one
`XT_Prepare` for the volume named `"A"` leaves two records in the registry, and the
two have the same (empty) name. -/
theorem XT_Prepare_repeats_name :
    XT_Init xways 2000 xways.XT_INIT_XWF 0 true Globals.startup = (afterInit, 0)
      ∧ XT_Prepare xways ['D'] ['A'] 1 afterInit xways.XT_ACTION_RVS
          = Except.ok (afterPrepare 1, 1)
      ∧ (afterPrepare 1).volumes.map XtVolume.name = [[], []]
      ∧ ¬ ((afterPrepare 1).volumes.map XtVolume.name).Nodup :=
  ⟨rfl, rfl, rfl, by decide⟩

/-- A call of `XT_Prepare` with `EXIT` clear and a supported operation type runs
lines 205-243 with the `return_value` of its case. -/
theorem XT_Prepare_supported (api : XTension) (longname shortname : List Char)
    (item_count : Nat) (g : Globals) (nOpType : Nat) (hE : g.EXIT = false)
    (hop : nOpType = api.XT_ACTION_RVS ∨ nOpType = api.XT_ACTION_DBC) :
    XT_Prepare api longname shortname item_count g nOpType
      = prepareVolume api longname shortname item_count g
          (if nOpType = api.XT_ACTION_RVS
            then ((api.XT_PREPARE_CALLPI ||| api.XT_PREPARE_CALLPILATE : Nat) : Int) else 0) := by
  have hd := api.labels_distinct
  simp only [List.nodup_cons, List.mem_cons, List.mem_singleton, not_or, List.not_mem_nil,
    not_false_eq_true, List.nodup_nil, and_true] at hd
  obtain ⟨⟨_, _, _, h1, h2⟩, ⟨_, _, h3, h4⟩, ⟨_, h5, h6⟩, ⟨h7, h8⟩, h9⟩ := hd
  unfold XT_Prepare
  rw [if_neg (by simp [hE])]
  rcases hop with hop | hop
  · subst hop
    rw [if_neg (Ne.symm h1), if_neg (by
      intro h
      rcases h with h | h | h
      · exact h3 h.symm
      · exact h5 h.symm
      · exact h7 h.symm), if_pos rfl, if_pos rfl]
  · subst hop
    rw [if_neg (Ne.symm h2), if_neg (by
      intro h
      rcases h with h | h | h
      · exact h4 h.symm
      · exact h6 h.symm
      · exact h8 h.symm), if_neg (Ne.symm h9), if_pos rfl, if_neg (Ne.symm h9)]

/-- C8, the claim fails: with a block of capacity 1 the second `XT_ProcessItem` is
not turned away; it addresses `file_ids[1]`, the element behind the block. -/
theorem XT_ProcessItem_beyond_capacity :
    XT_Prepare xways ['D'] ['A'] 1 afterInit xways.XT_ACTION_RVS = Except.ok (afterPrepare 1, 1)
      ∧ XT_ProcessItem (afterPrepare 1) 10 = Except.ok (afterCollect [10], 0)
      ∧ XT_ProcessItem (afterCollect [10]) 11 = Except.error (Fault.outOfBounds 1 1) :=
  ⟨rfl, rfl, rfl⟩

/-- C8 as amended: after an `XT_Prepare` that allocates capacity `c`, a run of at most
`c` `XT_ProcessItem` calls stores the identifiers at the indices `0 .. n-1` of the
block, in order, leaves the other elements unstored and sets `file_count` to their
number `n ≤ c`; `c` calls fill the block exactly. `XT_ProcessItem` does not compare
`file_count` with the capacity: one more call addresses index `c`, behind the block. -/
theorem collectAll_within_capacity (api : XTension) (longname shortname : List Char)
    (c : Nat) (g0 : Globals) (nOpType : Nat) (ids : List Int)
    (hE : g0.EXIT = false)
    (hop : nOpType = api.XT_ACTION_RVS ∨ nOpType = api.XT_ACTION_DBC)
    (hlen : ids.length ≤ c) :
    ∃ g r v, XT_Prepare api longname shortname c g0 nOpType = Except.ok (g, r)
      ∧ g.current = some v ∧ v.file_ids = some (List.replicate c none) ∧ v.file_count = 0
      ∧ collectAll g ids = Except.ok (g.setCurrent (XtVolume.mk
          (some (ids.map some ++ List.replicate (c - ids.length) none)) ids.length v.name))
      ∧ (ids.length = c → ∀ id : Int,
          XT_ProcessItem (g.setCurrent (XtVolume.mk
            (some (ids.map some ++ List.replicate (c - ids.length) none)) ids.length v.name)) id
            = Except.error (Fault.outOfBounds c c)) := by
  obtain ⟨g, i, v, hprep, hEg, _, hc, hv, hb, hk⟩ := prepareVolume_ok api longname shortname c g0
    (if nOpType = api.XT_ACTION_RVS
      then ((api.XT_PREPARE_CALLPI ||| api.XT_PREPARE_CALLPILATE : Nat) : Int) else 0)
  have hi : i < g.volumes.length := by
    by_contra hcon
    rw [List.getElem?_eq_none (by omega)] at hv
    exact absurd hv (by simp)
  have hrun := collectAll_room ids g i v (List.replicate c none) 0 (hEg.trans hE) hc hv hb
    (by rw [hk]; rfl) (by rw [List.length_replicate]; omega)
  simp only [List.take_zero, List.nil_append, Nat.zero_add, List.drop_replicate] at hrun
  rw [← XT_Prepare_supported api longname shortname c g0 nOpType hE hop] at hprep
  refine ⟨g, _, v, hprep, ?_, hb, hk, hrun, ?_⟩
  · rw [current_eq g i hc]
    exact hv
  · intro hfull id
    have h := XT_ProcessItem_full
      (g.setCurrent (XtVolume.mk
        (some (ids.map some ++ List.replicate (c - ids.length) none)) ids.length v.name))
      i _ (ids.map some ++ List.replicate (c - ids.length) none) ids.length id
      (by rw [setCurrent_eq g i _ hc]; exact hEg.trans hE)
      (by rw [setCurrent_eq g i _ hc]; exact hc)
      (by rw [setCurrent_eq g i _ hc]; exact List.getElem?_set_self hi)
      rfl rfl (by simp; omega)
    have hl : (ids.map some ++ List.replicate (c - ids.length) (none : Option Int)).length = c := by
      simp; omega
    rw [hl, hfull] at h
    rw [hfull]
    exact h

theorem collectAll_within_capacity_witness :
    afterInit.EXIT = false
      ∧ (xways.XT_ACTION_RVS = xways.XT_ACTION_RVS ∨ xways.XT_ACTION_RVS = xways.XT_ACTION_DBC)
      ∧ [(10 : Int), 11].length ≤ 2
      ∧ ∃ g r v, XT_Prepare xways ['D'] ['A'] 2 afterInit xways.XT_ACTION_RVS = Except.ok (g, r)
        ∧ g.current = some v ∧ v.file_ids = some (List.replicate 2 none) ∧ v.file_count = 0
        ∧ collectAll g [(10 : Int), 11] = Except.ok (g.setCurrent (XtVolume.mk
            (some ([(10 : Int), 11].map some ++ List.replicate (2 - [(10 : Int), 11].length) none))
            [(10 : Int), 11].length v.name))
        ∧ ([(10 : Int), 11].length = 2 → ∀ id : Int,
            XT_ProcessItem (g.setCurrent (XtVolume.mk
              (some ([(10 : Int), 11].map some
                ++ List.replicate (2 - [(10 : Int), 11].length) none))
              [(10 : Int), 11].length v.name)) id
              = Except.error (Fault.outOfBounds 2 2)) :=
  ⟨rfl, Or.inl rfl, by decide,
    collectAll_within_capacity xways ['D'] ['A'] 2 afterInit xways.XT_ACTION_RVS [10, 11]
      rfl (Or.inl rfl) (by decide)⟩


/-- C9, the claim fails: for a volume that `SetCurrentVolume` had to append, both
supported operation types return `XT_PREPARE_CALLPI` (1), not `0` for
`XT_ACTION_DBC` and not `XT_PREPARE_CALLPI | XT_PREPARE_CALLPILATE` (3) for
`XT_ACTION_RVS`; for the volume found in the registry (the empty name) they return
`0` and `3`. -/
theorem XT_Prepare_signal_of_appended_volume :
    XT_Prepare xways ['D'] ['A'] 1 afterInit xways.XT_ACTION_DBC = Except.ok (afterPrepare 1, 1)
      ∧ XT_Prepare xways ['D'] ['A'] 1 afterInit xways.XT_ACTION_RVS
          = Except.ok (afterPrepare 1, 1)
      ∧ XT_Prepare xways ['D'] [] 1 afterInit xways.XT_ACTION_DBC
          = Except.ok (Globals.mk false [XtVolume.mk (some [none]) 0 []] (some 0) [], 0)
      ∧ XT_Prepare xways ['D'] [] 1 afterInit xways.XT_ACTION_RVS
          = Except.ok (Globals.mk false [XtVolume.mk (some [none]) 0 []] (some 0) [], 3) :=
  ⟨rfl, rfl, rfl, rfl⟩

/-- C9 as amended: for an `XT_Prepare` call with `EXIT` clear the value returned is
determined by the operation type together with the result of `SetCurrentVolume`:
when the volume was found in the registry, `XT_ACTION_RVS` returns
`XT_PREPARE_CALLPI | XT_PREPARE_CALLPILATE` and `XT_ACTION_DBC` returns `0`; when a
record was appended, both return `XT_PREPARE_CALLPI`. -/
theorem XT_Prepare_signal (api : XTension) (longname shortname : List Char)
    (item_count : Nat) (g : Globals) (hE : g.EXIT = false) :
    (∃ g2, XT_Prepare api longname shortname item_count g api.XT_ACTION_RVS
        = Except.ok (g2,
            if (SetCurrentVolume g (normalizeKey (deriveKey longname shortname))).2
            then ((api.XT_PREPARE_CALLPI ||| api.XT_PREPARE_CALLPILATE : Nat) : Int)
            else (api.XT_PREPARE_CALLPI : Int)))
      ∧ (∃ g2, XT_Prepare api longname shortname item_count g api.XT_ACTION_DBC
        = Except.ok (g2,
            if (SetCurrentVolume g (normalizeKey (deriveKey longname shortname))).2
            then 0 else (api.XT_PREPARE_CALLPI : Int))) := by
  have hd := api.labels_distinct
  simp only [List.nodup_cons, List.mem_cons, List.mem_singleton, not_or, List.not_mem_nil,
    not_false_eq_true, List.nodup_nil, and_true] at hd
  have hne : api.XT_ACTION_DBC ≠ api.XT_ACTION_RVS := Ne.symm hd.2.2.2.2
  constructor
  · obtain ⟨g2, _, _, h, _⟩ := prepareVolume_ok api longname shortname item_count g
      ((api.XT_PREPARE_CALLPI ||| api.XT_PREPARE_CALLPILATE : Nat) : Int)
    refine ⟨g2, ?_⟩
    rw [XT_Prepare_supported api longname shortname item_count g _ hE (Or.inl rfl), if_pos rfl]
    exact h
  · obtain ⟨g2, _, _, h, _⟩ := prepareVolume_ok api longname shortname item_count g 0
    refine ⟨g2, ?_⟩
    rw [XT_Prepare_supported api longname shortname item_count g _ hE (Or.inr rfl), if_neg hne]
    exact h

theorem XT_Prepare_signal_witness :
    afterInit.EXIT = false
      ∧ ((∃ g2, XT_Prepare xways ['D'] ['A'] 1 afterInit xways.XT_ACTION_RVS
          = Except.ok (g2,
              if (SetCurrentVolume afterInit (normalizeKey (deriveKey ['D'] ['A']))).2
              then ((xways.XT_PREPARE_CALLPI ||| xways.XT_PREPARE_CALLPILATE : Nat) : Int)
              else (xways.XT_PREPARE_CALLPI : Int)))
        ∧ (∃ g2, XT_Prepare xways ['D'] ['A'] 1 afterInit xways.XT_ACTION_DBC
          = Except.ok (g2,
              if (SetCurrentVolume afterInit (normalizeKey (deriveKey ['D'] ['A']))).2
              then 0 else (xways.XT_PREPARE_CALLPI : Int)))) :=
  ⟨rfl, XT_Prepare_signal xways ['D'] ['A'] 1 afterInit rfl⟩

/-- C10, the code at the failing input: with two identifiers collected and the host
answering "stop" at the top of the second iteration, `XT_Finalize` returns 1 after
one comment and the current record still holds its block `file_ids`; when the host
never answers "stop", the same call ends with `file_ids = NULL`. -/
theorem XT_Finalize_stopped_keeps_file_ids :
    XT_Prepare xways ['D'] ['A'] 2 afterInit xways.XT_ACTION_RVS = Except.ok (afterPrepare 2, 1)
      ∧ collectAll (afterPrepare 2) [10, 11] = Except.ok (afterCollect [10, 11])
      ∧ (∀ entropyText : List BYTE → String,
          XT_Finalize entropyText (hostStoppingFrom 1) (afterCollect [10, 11])
            = Except.ok (Globals.mk false
                [XtVolume.zeroed, XtVolume.mk (some [some 10, some 11]) 2 []] (some 1)
                [Event.comment 10 (entropyText [0])], 1))
      ∧ (∀ entropyText : List BYTE → String,
          XT_Finalize entropyText (hostStoppingFrom 2) (afterCollect [10, 11])
            = Except.ok (Globals.mk false
                [XtVolume.zeroed, XtVolume.mk none 2 []] (some 1)
                [Event.comment 10 (entropyText [0]), Event.comment 11 (entropyText [0])], 1)) :=
  ⟨rfl, rfl, fun _ => rfl, fun _ => rfl⟩


/-! ## The second pass -/

theorem readId_of_drop (block : List (Option Int)) (i : Nat) (id : Int)
    (t : List (Option Int)) (h : block.drop i = some id :: t) :
    readId block i = Except.ok id ∧ block.drop (i + 1) = t := by
  have h0 : block[i]? = some (some id) := by
    have := List.getElem?_drop block i 0
    rw [h] at this
    simpa using this.symm
  constructor
  · unfold readId
    rw [h0]
  · have h1 : block.drop (i + 1) = (block.drop i).drop 1 := by
      rw [List.drop_drop]
    rw [h1, h]
    rfl

/-- The loop of `XT_Finalize` over buffered identifiers at which the host does not
answer "stop": it hands over `itemEvents` for them and goes on behind them. -/
theorem finalizeLoop_items (entropyText : List BYTE → String) (host : Host)
    (block : List (Option Int)) :
    ∀ (ids : List Int) (rounds i : Nat) (out : List Event) (t : List (Option Int)),
      block.drop i = ids.map some ++ t →
      (∀ j, j < ids.length → host.shouldStop (i + j) = false) →
      ids.length ≤ rounds →
      finalizeLoop entropyText host block rounds i out
        = finalizeLoop entropyText host block (rounds - ids.length) (i + ids.length)
            (out ++ itemEvents entropyText host i ids) := by
  intro ids
  induction ids with
  | nil =>
    intro rounds i out t _ _ _
    simp [itemEvents]
  | cons id ids ih =>
    intro rounds i out t hb hstop hle
    simp only [List.length_cons] at hle
    obtain ⟨r, rfl⟩ : ∃ r, rounds = r + 1 := ⟨rounds - 1, by omega⟩
    have h0 : host.shouldStop i = false := by
      have := hstop 0 (by simp)
      simpa using this
    obtain ⟨hread, hdrop⟩ := readId_of_drop block i id (ids.map some ++ t) (by simpa using hb)
    have hrec := ih r (i + 1) (out ++ finalizeItem entropyText host i id) t hdrop
      (fun j hj => by
        have := hstop (j + 1) (by simp only [List.length_cons]; omega)
        rw [show i + 1 + j = i + (j + 1) by omega]
        exact this)
      (by omega)
    show (if host.shouldStop i = true then Except.ok (out, true)
      else match readId block i with
        | Except.error f => Except.error f
        | Except.ok id =>
          finalizeLoop entropyText host block r (i + 1)
            (out ++ finalizeItem entropyText host i id)) = _
    rw [h0, hread]
    simp only [Bool.false_eq_true, if_false]
    rw [hrec]
    simp only [List.length_cons, itemEvents, List.append_assoc]
    rw [show r + 1 - (ids.length + 1) = r - ids.length by omega,
      show i + (ids.length + 1) = i + 1 + ids.length by omega]

/-- Among what the loop hands over for the items, the comments are the expected
ones. -/
theorem itemEvents_comments (entropyText : List BYTE → String) (host : Host) :
    ∀ (ids : List Int) (i : Nat),
      (itemEvents entropyText host i ids).filter Event.isComment
        = expectedComments entropyText host i ids := by
  intro ids
  induction ids with
  | nil => intro i; rfl
  | cons id ids ih =>
    intro i
    simp only [itemEvents, expectedComments, List.filter_append, ih]
    congr 1
    unfold finalizeItem
    cases ho : host.openItem i id <;> cases hm : host.mallocOk i id <;>
      by_cases hr : (host.read i id).length = 0 <;>
      simp [hr, Event.isComment, Nat.pos_iff_ne_zero]


theorem expectedComments_append (entropyText : List BYTE → String) (host : Host) :
    ∀ (a b : List Int) (i : Nat),
      expectedComments entropyText host i (a ++ b)
        = expectedComments entropyText host i a
          ++ expectedComments entropyText host (i + a.length) b := by
  intro a
  induction a with
  | nil => intro b i; simp [expectedComments]
  | cons x a ih =>
    intro b i
    rw [List.cons_append]
    simp only [expectedComments, List.length_cons]
    rw [ih, List.append_assoc, show i + 1 + a.length = i + (a.length + 1) by omega]

/-- The state `XT_Finalize` starts its loop from, and what the loop is run with. -/
theorem XT_Finalize_enter (entropyText : List BYTE → String) (host : Host) (g : Globals)
    (v : XtVolume) (block : List (Option Int)) (n : Nat)
    (hE : g.EXIT = false) (hcur : g.current = some v) (hb : v.file_ids = some block)
    (hn : v.file_count = (n : Int)) (h1 : 1 ≤ n) :
    XT_Finalize entropyText host g
      = match finalizeLoop entropyText host block n 0 g.out with
        | Except.error f => Except.error f
        | Except.ok (out, true) =>
          Except.ok (Globals.mk g.EXIT g.volumes g.current_volume out, 1)
        | Except.ok (out, false) =>
          Except.ok ((Globals.mk g.EXIT g.volumes g.current_volume out).setCurrent
            (XtVolume.mk none v.file_count v.name), 1) := by
  have hne : ¬ v.file_count = 0 := by
    rw [hn]
    intro h
    have : n = 0 := by exact_mod_cast h
    omega
  have hto : v.file_count.toNat = n := by rw [hn]; exact Int.toNat_natCast n
  unfold XT_Finalize
  rw [if_neg (by simp [hE]), hcur]
  simp only
  rw [hb]
  simp only
  rw [if_neg hne, hto]

/-- The `double` function in the arithmetic without rounding is the exact-real
`CalcEntropyInByte`. -/
theorem CalcEntropyInByteD_exactReals (printf16 : ℝ → String) (filebuf : List BYTE) :
    CalcEntropyInByteD (exactReals printf16) filebuf = CalcEntropyInByte filebuf := by
  have hstep : entropyStepD (exactReals printf16) (freqList filebuf) filebuf.length
      = entropyStep (freqList filebuf) filebuf.length := by
    funext e i
    rfl
  unfold CalcEntropyInByteD CalcEntropyInByte entropyAccum
  rw [hstep]
  show (if decide (_ < (0 : ℝ)) = true then (-1 : ℝ) * _ else _) = _
  simp only [decide_eq_true_eq]
  rfl

/-- C11: a run of `XT_Finalize` over the buffered identifiers `id_0 .. id_(n-1)`,
`n ≥ 1`, during which the host never answers "stop", returns 1 (the status of a
processed volume) and hands the host, in discovery order, exactly one comment for
each item that opens, gets its scratch block and reads more than zero bytes: the
comment `(id_i, printf16 (CalcEntropyInByte bytes_i))`, the `"%1.16lf"` text of the
`double` that `CalcEntropyInByte` computes from the bytes read; the other items add no
comment. This holds for every `double` arithmetic `fp`. -/
theorem XT_Finalize_uncancelled (fp : Doubles) (host : Host) (g : Globals)
    (v : XtVolume) (ids : List Int) (t : List (Option Int))
    (hE : g.EXIT = false) (hcur : g.current = some v)
    (hb : v.file_ids = some (ids.map some ++ t)) (hn : v.file_count = (ids.length : Int))
    (h1 : 1 ≤ ids.length) (hstop : ∀ i, host.shouldStop i = false) :
    XT_Finalize (commentText fp) host g
        = Except.ok ((Globals.mk g.EXIT g.volumes g.current_volume
            (g.out ++ itemEvents (commentText fp) host 0 ids)).setCurrent
              (XtVolume.mk none v.file_count v.name), 1)
      ∧ (itemEvents (commentText fp) host 0 ids).filter Event.isComment
          = expectedComments (fun bytes => fp.printf16 (CalcEntropyInByteD fp bytes))
              host 0 ids := by
  refine ⟨?_, itemEvents_comments (fun bytes => fp.printf16 (CalcEntropyInByteD fp bytes))
    host ids 0⟩
  rw [XT_Finalize_enter _ host g v _ ids.length hE hcur hb hn h1,
    finalizeLoop_items _ host _ ids ids.length 0 g.out t (by simp)
      (fun j _ => hstop (0 + j)) (le_refl _)]
  simp only [Nat.sub_self, Nat.zero_add]
  rfl

theorem XT_Finalize_uncancelled_witness :
    (afterCollect [10, 11, 12, 13, 14]).EXIT = false
      ∧ (afterCollect [10, 11, 12, 13, 14]).current
          = some (XtVolume.mk (some ([(10 : Int), 11, 12, 13, 14].map some ++ [])) 5 [])
      ∧ (1 ≤ [(10 : Int), 11, 12, 13, 14].length)
      ∧ (∀ i, (hostWithFailures (fun _ => false)).shouldStop i = false)
      ∧ (XT_Finalize (commentText (exactReals (fun _ => "h")))
            (hostWithFailures (fun _ => false)) (afterCollect [10, 11, 12, 13, 14])
          = Except.ok ((Globals.mk (afterCollect [10, 11, 12, 13, 14]).EXIT
              (afterCollect [10, 11, 12, 13, 14]).volumes
              (afterCollect [10, 11, 12, 13, 14]).current_volume
              ((afterCollect [10, 11, 12, 13, 14]).out
                ++ itemEvents (commentText (exactReals (fun _ => "h")))
                    (hostWithFailures (fun _ => false)) 0 [10, 11, 12, 13, 14])).setCurrent
                (XtVolume.mk none 5 []), 1)
        ∧ (itemEvents (commentText (exactReals (fun _ => "h")))
              (hostWithFailures (fun _ => false)) 0 [10, 11, 12, 13, 14]).filter
                Event.isComment
            = expectedComments
                (fun bytes => (exactReals (fun _ => "h")).printf16
                  (CalcEntropyInByteD (exactReals (fun _ => "h")) bytes))
                (hostWithFailures (fun _ => false)) 0 [10, 11, 12, 13, 14]) :=
  ⟨rfl, by decide, by decide, fun _ => rfl,
    XT_Finalize_uncancelled (exactReals (fun _ => "h")) (hostWithFailures (fun _ => false))
      (afterCollect [10, 11, 12, 13, 14])
      (XtVolume.mk (some ([(10 : Int), 11, 12, 13, 14].map some ++ [])) 5 [])
      [10, 11, 12, 13, 14] [] rfl (by decide) rfl rfl (by decide) (fun _ => rfl)⟩

/-- C12: when the host first answers "stop" at the top of iteration `k < n`,
`XT_Finalize` returns 1 (the status of a stopped run) at that test: what it has
handed over is what the loop hands over for the items `0 .. k-1` alone, appended to
the earlier output; the comments in it are the expected comments of those items, a
leading part of the comments of the run that is not cancelled; the registry is as
before, and nothing of item `k` or a later item enters the result. -/
theorem XT_Finalize_cancelled (entropyText : List BYTE → String) (host : Host)
    (g : Globals) (v : XtVolume) (ids : List Int) (t : List (Option Int)) (k : Nat)
    (hE : g.EXIT = false) (hcur : g.current = some v)
    (hb : v.file_ids = some (ids.map some ++ t)) (hn : v.file_count = (ids.length : Int))
    (hk : k < ids.length)
    (hbefore : ∀ i, i < k → host.shouldStop i = false) (hat : host.shouldStop k = true) :
    XT_Finalize entropyText host g
        = Except.ok (Globals.mk g.EXIT g.volumes g.current_volume
            (g.out ++ itemEvents entropyText host 0 (ids.take k)), 1)
      ∧ (itemEvents entropyText host 0 (ids.take k)).filter Event.isComment
          = expectedComments entropyText host 0 (ids.take k)
      ∧ expectedComments entropyText host 0 ids
          = expectedComments entropyText host 0 (ids.take k)
            ++ expectedComments entropyText host k (ids.drop k) := by
  have hlen : (ids.take k).length = k := by rw [List.length_take]; omega
  refine ⟨?_, itemEvents_comments _ host _ 0, ?_⟩
  · have hsplit : (ids.map some ++ t).drop 0
        = (ids.take k).map some ++ ((ids.drop k).map some ++ t) := by
      rw [List.drop_zero, ← List.append_assoc, ← List.map_append, List.take_append_drop]
    rw [XT_Finalize_enter _ host g v _ ids.length hE hcur hb hn (by omega),
      finalizeLoop_items _ host _ (ids.take k) ids.length 0 g.out _ hsplit
        (fun j hj => by
          rw [hlen] at hj
          rw [Nat.zero_add]
          exact hbefore j hj)
        (by rw [hlen]; omega)]
    rw [hlen, Nat.zero_add]
    obtain ⟨r, hr⟩ : ∃ r, ids.length - k = r + 1 := ⟨ids.length - k - 1, by omega⟩
    rw [hr]
    have hloop : ∀ out : List Event,
        finalizeLoop entropyText host (ids.map some ++ t) (r + 1) k out
          = Except.ok (out, true) := by
      intro out
      simp [finalizeLoop, hat]
    rw [hloop]
  · have := expectedComments_append entropyText host (ids.take k) (ids.drop k) 0
    rw [List.take_append_drop, hlen, Nat.zero_add] at this
    exact this


theorem XT_Finalize_cancelled_witness :
    (afterCollect [10, 11, 12, 13, 14]).EXIT = false
      ∧ (afterCollect [10, 11, 12, 13, 14]).current
          = some (XtVolume.mk (some ([(10 : Int), 11, 12, 13, 14].map some ++ [])) 5 [])
      ∧ 2 < [(10 : Int), 11, 12, 13, 14].length
      ∧ (∀ i, i < 2 → (hostWithFailures (fun i => decide (2 ≤ i))).shouldStop i = false)
      ∧ (hostWithFailures (fun i => decide (2 ≤ i))).shouldStop 2 = true
      ∧ (XT_Finalize (fun _ => "h") (hostWithFailures (fun i => decide (2 ≤ i)))
            (afterCollect [10, 11, 12, 13, 14])
          = Except.ok (Globals.mk (afterCollect [10, 11, 12, 13, 14]).EXIT
              (afterCollect [10, 11, 12, 13, 14]).volumes
              (afterCollect [10, 11, 12, 13, 14]).current_volume
              ((afterCollect [10, 11, 12, 13, 14]).out
                ++ itemEvents (fun _ => "h") (hostWithFailures (fun i => decide (2 ≤ i))) 0
                    ([(10 : Int), 11, 12, 13, 14].take 2)), 1)
        ∧ (itemEvents (fun _ => "h") (hostWithFailures (fun i => decide (2 ≤ i))) 0
              ([(10 : Int), 11, 12, 13, 14].take 2)).filter Event.isComment
            = expectedComments (fun _ => "h") (hostWithFailures (fun i => decide (2 ≤ i))) 0
                ([(10 : Int), 11, 12, 13, 14].take 2)
        ∧ expectedComments (fun _ => "h") (hostWithFailures (fun i => decide (2 ≤ i))) 0
              [10, 11, 12, 13, 14]
            = expectedComments (fun _ => "h") (hostWithFailures (fun i => decide (2 ≤ i))) 0
                ([(10 : Int), 11, 12, 13, 14].take 2)
              ++ expectedComments (fun _ => "h") (hostWithFailures (fun i => decide (2 ≤ i))) 2
                ([(10 : Int), 11, 12, 13, 14].drop 2)) :=
  ⟨rfl, by decide, by decide, fun i hi => decide_eq_false (by omega), rfl,
    XT_Finalize_cancelled (fun _ => "h") (hostWithFailures (fun i => decide (2 ≤ i)))
      (afterCollect [10, 11, 12, 13, 14])
      (XtVolume.mk (some ([(10 : Int), 11, 12, 13, 14].map some ++ [])) 5 [])
      [10, 11, 12, 13, 14] [] 2 rfl (by decide) rfl rfl (by decide)
      (fun i hi => decide_eq_false (by omega)) rfl⟩

/-! ## The key of a volume -/

theorem wcsstr_iff (shortname : List Char) :
    ∀ longname : List Char, wcsstr longname shortname = true ↔ shortname <:+: longname := by
  intro longname
  induction longname with
  | nil =>
    unfold wcsstr
    rw [List.infix_nil, List.isEmpty_iff]
  | cons c rest ih =>
    unfold wcsstr
    rw [Bool.or_eq_true, List.isPrefixOf_iff_prefix, ih, List.infix_cons_iff]

theorem getD_eq_iff (s : List Char) (i : Nat) (c d : Char) (hcd : d ≠ c) :
    s.getD i d = c ↔ s[i]? = some c := by
  rw [List.getD_eq_getElem?_getD]
  cases h : s[i]? with
  | none => simp [hcd]
  | some x => simp

theorem truncateAt_cond (s : List Char) (p : Nat) :
    (s.getD (p + 2) (Char.ofNat 0) = ' ' ∧ s.getD (p + 1) (Char.ofNat 0) = ',')
      ↔ commaSpaceAt s (p + 1) := by
  unfold commaSpaceAt
  rw [getD_eq_iff s (p + 2) ' ' (Char.ofNat 0) (by decide),
    getD_eq_iff s (p + 1) ',' (Char.ofNat 0) (by decide)]
  exact And.comm

/-- The loop entered with `pos` cuts at the last comma-blank pair whose comma has an
index from `1` to `pos - 1`. -/
theorem truncateAt_found (s : List Char) :
    ∀ (pos j : Nat), 1 ≤ j → j + 1 ≤ pos → commaSpaceAt s j →
      (∀ j2, j < j2 → ¬ commaSpaceAt s j2) → truncateAt s pos = s.take j := by
  intro pos
  induction pos using Nat.strongRecOn with
  | _ pos ih =>
    intro j h1 hj hpair hlast
    match pos, ih, hj with
    | 0, _, hj => omega
    | 1, _, hj => omega
    | p + 2, ih, hj =>
      unfold truncateAt
      by_cases hjp : j = p + 1
      · subst hjp
        rw [if_pos ((truncateAt_cond s p).mpr hpair)]
      · rw [if_neg (fun h => hlast (p + 1) (by omega) ((truncateAt_cond s p).mp h))]
        exact ih (p + 1) (by omega) j h1 (by omega) hpair hlast

/-- The loop leaves a string alone that has no comma-blank pair with the comma at an
index from `1` on. -/
theorem truncateAt_none (s : List Char) (hno : ∀ j, 1 ≤ j → ¬ commaSpaceAt s j) :
    ∀ pos : Nat, truncateAt s pos = s := by
  intro pos
  induction pos using Nat.strongRecOn with
  | _ pos ih =>
    match pos, ih with
    | 0, _ => rfl
    | 1, _ => rfl
    | p + 2, ih =>
      unfold truncateAt
      rw [if_neg (fun h => hno (p + 1) (by omega) ((truncateAt_cond s p).mp h))]
      exact ih (p + 1) (by omega)

theorem commaSpaceAt_lt (s : List Char) (j : Nat) (h : commaSpaceAt s j) : j + 1 < s.length := by
  by_contra hcon
  have := h.2
  rw [List.getElem?_eq_none (by omega)] at this
  exact absurd this (by simp)


/-- C13, the claim fails at index 0: for the short name `", Y"` (not contained in the
long name `"D"`) the only comma-blank pair is at index 0; the prefix before it is
empty, but the key derived is the whole short name. -/
theorem deriveKey_pair_at_index_zero :
    wcsstr ['D'] [',', ' ', 'Y'] = false
      ∧ commaSpaceAt [',', ' ', 'Y'] 0
      ∧ deriveKey ['D'] [',', ' ', 'Y'] = [',', ' ', 'Y']
      ∧ deriveKey ['D'] [',', ' ', 'Y'] ≠ [',', ' ', 'Y'].take 0 := by
  decide

/-- C13 as amended: when the long name contains the short name, the short name is
kept; otherwise the key is the prefix of the short name before the last comma-blank
pair whose comma is at index 1 or later, and the short name is kept when there is no
such pair. A pair with its comma at index 0 is never looked at. -/
theorem deriveKey_spec (longname shortname : List Char) :
    (shortname <:+: longname → deriveKey longname shortname = shortname)
      ∧ (¬ shortname <:+: longname → ∀ j, 1 ≤ j → commaSpaceAt shortname j →
          (∀ j2, j < j2 → ¬ commaSpaceAt shortname j2) →
          deriveKey longname shortname = shortname.take j)
      ∧ (¬ shortname <:+: longname → (∀ j, 1 ≤ j → ¬ commaSpaceAt shortname j) →
          deriveKey longname shortname = shortname) := by
  refine ⟨?_, ?_, ?_⟩
  · intro h
    unfold deriveKey
    rw [if_neg (by rw [(wcsstr_iff shortname longname).mpr h]; simp)]
  · intro h j h1 hpair hlast
    have hw : wcsstr longname shortname = false := by
      rw [← Bool.not_eq_true, wcsstr_iff]
      exact h
    unfold deriveKey
    rw [if_pos hw]
    exact truncateAt_found shortname shortname.length j h1
      (by have := commaSpaceAt_lt shortname j hpair; omega) hpair hlast
  · intro h hno
    have hw : wcsstr longname shortname = false := by
      rw [← Bool.not_eq_true, wcsstr_iff]
      exact h
    unfold deriveKey
    rw [if_pos hw]
    exact truncateAt_none shortname hno shortname.length

theorem deriveKey_spec_witness :
    deriveKey ['D', ' ', 'X', ',', ' ', 'Y'] ['X', ',', ' ', 'Y'] = ['X', ',', ' ', 'Y']
      ∧ deriveKey ['D'] ['X', ',', ' ', 'Y', ',', ' ', 'Z']
          = ['X', ',', ' ', 'Y', ',', ' ', 'Z'].take 4
      ∧ deriveKey ['D'] [',', ' ', 'Y'] = [',', ' ', 'Y'] :=
  ⟨(deriveKey_spec ['D', ' ', 'X', ',', ' ', 'Y'] ['X', ',', ' ', 'Y']).1 (by decide),
    (deriveKey_spec ['D'] ['X', ',', ' ', 'Y', ',', ' ', 'Z']).2.1 (by decide) 4 (by decide)
      (by decide)
      (fun j2 hj hc => by
        have hlt := commaSpaceAt_lt _ _ hc
        simp only [List.length_cons, List.length_nil] at hlt
        have h5 : j2 = 5 := by omega
        subst h5
        revert hc
        decide),
    (deriveKey_spec ['D'] [',', ' ', 'Y']).2.2 (by decide)
      (fun j hj hc => by
        have hlt := commaSpaceAt_lt _ _ hc
        simp only [List.length_cons, List.length_nil] at hlt
        have h1 : j = 1 := by omega
        subst h1
        revert hc
        decide)⟩

theorem replaceChar_eq (c : Char) :
    replaceChar c = if c ∈ reservedChars then '_' else c := by
  unfold replaceChar reservedChars
  simp only [List.mem_cons, List.mem_singleton, List.not_mem_nil, or_false]

theorem replaceChar_not_reserved (c : Char) : replaceChar c ∉ reservedChars := by
  rw [replaceChar_eq]
  split
  · decide
  · assumption

theorem replaceChar_idem (c : Char) : replaceChar (replaceChar c) = replaceChar c := by
  rw [replaceChar_eq (replaceChar c), if_neg (replaceChar_not_reserved c)]

/-- C14: the normalised key has the length of the derived key, has `_` wherever the
derived key has one of the nine reserved characters and the character of the derived
key everywhere else; so it contains none of the nine characters, and normalising it
again changes nothing. -/
theorem normalizeKey_spec (s : List Char) :
    (normalizeKey s).length = s.length
      ∧ (∀ i : Nat, (normalizeKey s)[i]?
          = (s[i]?).map (fun c => if c ∈ reservedChars then '_' else c))
      ∧ (∀ c : Char, c ∈ normalizeKey s → c ∉ reservedChars)
      ∧ normalizeKey (normalizeKey s) = normalizeKey s := by
  refine ⟨?_, ?_, ?_, ?_⟩
  · unfold normalizeKey
    rw [List.length_map]
  · intro i
    unfold normalizeKey
    rw [List.getElem?_map]
    cases s[i]? with
    | none => rfl
    | some c => simp only [Option.map_some', replaceChar_eq]
  · intro c hc
    unfold normalizeKey at hc
    rw [List.mem_map] at hc
    obtain ⟨d, _, rfl⟩ := hc
    exact replaceChar_not_reserved d
  · unfold normalizeKey
    rw [List.map_map]
    apply List.map_congr_left
    intro c _
    exact replaceChar_idem c

theorem normalizeKey_spec_witness :
    (normalizeKey ['a', ':', Char.ofNat 92, 'b', '|']).length
        = ['a', ':', Char.ofNat 92, 'b', '|'].length
      ∧ (normalizeKey ['a', ':', Char.ofNat 92, 'b', '|'])[1]?
          = (['a', ':', Char.ofNat 92, 'b', '|'][1]?).map
              (fun c => if c ∈ reservedChars then '_' else c)
      ∧ ('_' ∉ reservedChars)
      ∧ normalizeKey (normalizeKey ['a', ':', Char.ofNat 92, 'b', '|'])
          = normalizeKey ['a', ':', Char.ofNat 92, 'b', '|'] :=
  ⟨(normalizeKey_spec ['a', ':', Char.ofNat 92, 'b', '|']).1,
    (normalizeKey_spec ['a', ':', Char.ofNat 92, 'b', '|']).2.1 1,
    (normalizeKey_spec ['a', ':', Char.ofNat 92, 'b', '|']).2.2.1 '_' (by decide),
    (normalizeKey_spec ['a', ':', Char.ofNat 92, 'b', '|']).2.2.2⟩


/-! ## Collecting, lookup and the entries of Prepare -/

theorem current_some (g : Globals) (v : XtVolume) (h : g.current = some v) :
    ∃ i, g.current_volume = some i ∧ g.volumes[i]? = some v ∧ i < g.volumes.length := by
  unfold Globals.current at h
  cases hc : g.current_volume with
  | none => rw [hc] at h; exact absurd h (by simp)
  | some i =>
    rw [hc] at h
    simp only at h
    refine ⟨i, rfl, h, ?_⟩
    by_contra hcon
    rw [List.getElem?_eq_none (by omega)] at h
    exact absurd h (by simp)

/-- C15: with `EXIT` clear and a current volume whose fill count `f` is below the
capacity of its block, `XT_ProcessItem` stores the identifier at index `f`, leaves
every other element (those below `f` among them) as it was, raises `file_count` to
`f + 1` and returns 0. Hence after an `XT_Prepare` that allocates capacity `c`,
`n ≤ c` calls leave the identifiers, in the order of the calls, in the first `n`
elements of the block, with `file_count = n`. -/
theorem XT_ProcessItem_effect (g : Globals) (v : XtVolume) (block : List (Option Int))
    (f : Nat) (nItemID : Int)
    (hE : g.EXIT = false) (hcur : g.current = some v) (hb : v.file_ids = some block)
    (hf : v.file_count = (f : Int)) (hroom : f < block.length) :
    (XT_ProcessItem g nItemID = Except.ok (g.setCurrent
        (XtVolume.mk (some (block.set f (some nItemID))) ((f : Int) + 1) v.name), 0)
      ∧ (block.set f (some nItemID))[f]? = some (some nItemID)
      ∧ (∀ j, j ≠ f → (block.set f (some nItemID))[j]? = block[j]?))
    ∧ ∀ (api : XTension) (longname shortname : List Char) (c : Nat) (g0 : Globals)
        (nOpType : Nat) (ids : List Int),
        g0.EXIT = false →
        (nOpType = api.XT_ACTION_RVS ∨ nOpType = api.XT_ACTION_DBC) →
        ids.length ≤ c →
        ∃ g1 r g2 w filled,
          XT_Prepare api longname shortname c g0 nOpType = Except.ok (g1, r)
            ∧ collectAll g1 ids = Except.ok g2
            ∧ g2.current = some w ∧ w.file_ids = some filled
            ∧ filled.length = c ∧ filled.take ids.length = ids.map some
            ∧ w.file_count = (ids.length : Int) := by
  constructor
  · obtain ⟨i, hc, hv, _⟩ := current_some g v hcur
    exact ⟨XT_ProcessItem_store g i v block f nItemID hE hc hv hb hf hroom,
      List.getElem?_set_self hroom,
      fun j hj => List.getElem?_set_ne (Ne.symm hj)⟩
  · intro api longname shortname c g0 nOpType ids hE0 hop hlen
    obtain ⟨g1, i, v1, hprep, hEg, _, hc, hv, hb1, hk⟩ :=
      prepareVolume_ok api longname shortname c g0
        (if nOpType = api.XT_ACTION_RVS
          then ((api.XT_PREPARE_CALLPI ||| api.XT_PREPARE_CALLPILATE : Nat) : Int) else 0)
    rw [← XT_Prepare_supported api longname shortname c g0 nOpType hE0 hop] at hprep
    have hi : i < g1.volumes.length := by
      by_contra hcon
      rw [List.getElem?_eq_none (by omega)] at hv
      exact absurd hv (by simp)
    have hrun := collectAll_room ids g1 i v1 (List.replicate c none) 0 (hEg.trans hE0) hc hv hb1
      (by rw [hk]; rfl) (by rw [List.length_replicate]; omega)
    simp only [List.take_zero, List.nil_append, Nat.zero_add, List.drop_replicate] at hrun
    refine ⟨g1, _, _,
      XtVolume.mk (some (ids.map some ++ List.replicate (c - ids.length) none)) ids.length
        v1.name,
      ids.map some ++ List.replicate (c - ids.length) none, hprep, hrun, ?_, rfl, ?_, ?_, rfl⟩
    · rw [current_eq _ i (by rw [setCurrent_eq g1 i _ hc]; exact hc), setCurrent_eq g1 i _ hc]
      exact List.getElem?_set_self hi
    · simp only [List.length_append, List.length_map, List.length_replicate]
      omega
    · rw [List.take_append_of_le_length (by simp), List.take_of_length_le (by simp)]

theorem XT_ProcessItem_effect_witness :
    (afterPrepare 2).EXIT = false
      ∧ (afterPrepare 2).current = some (XtVolume.mk (some [none, none]) 0 [])
      ∧ 0 < [(none : Option Int), none].length
      ∧ (XT_ProcessItem (afterPrepare 2) 10 = Except.ok ((afterPrepare 2).setCurrent
            (XtVolume.mk (some ([(none : Option Int), none].set 0 (some 10)))
              (((0 : Nat) : Int) + 1) []), 0)
          ∧ ([(none : Option Int), none].set 0 (some 10))[0]? = some (some 10)
          ∧ (∀ j, j ≠ 0 → ([(none : Option Int), none].set 0 (some 10))[j]?
              = [(none : Option Int), none][j]?))
      ∧ ∃ g1 r g2 w filled,
          XT_Prepare xways ['D'] ['A'] 2 afterInit xways.XT_ACTION_RVS = Except.ok (g1, r)
            ∧ collectAll g1 [10, 11] = Except.ok g2
            ∧ g2.current = some w ∧ w.file_ids = some filled
            ∧ filled.length = 2 ∧ filled.take [(10 : Int), 11].length = [(10 : Int), 11].map some
            ∧ w.file_count = ([(10 : Int), 11].length : Int) :=
  ⟨rfl, by decide, by decide,
    (XT_ProcessItem_effect (afterPrepare 2) (XtVolume.mk (some [none, none]) 0 [])
      [none, none] 0 10 rfl (by decide) rfl rfl (by decide)).1,
    (XT_ProcessItem_effect (afterPrepare 2) (XtVolume.mk (some [none, none]) 0 [])
      [none, none] 0 10 rfl (by decide) rfl rfl (by decide)).2
      xways ['D'] ['A'] 2 afterInit xways.XT_ACTION_RVS [10, 11] rfl (Or.inl rfl) (by decide)⟩

theorem findVolume_first (name : List Char) :
    ∀ (vs : List XtVolume) (n i : Nat) (v : XtVolume), vs[i]? = some v → v.name = name →
      (∀ j w, j < i → vs[j]? = some w → w.name ≠ name) →
      findVolume name vs n = some (n + i) := by
  intro vs
  induction vs with
  | nil => intro n i v h; simp at h
  | cons x rest ih =>
    intro n i v h hname hfirst
    unfold findVolume
    cases i with
    | zero =>
      simp only [List.getElem?_cons_zero, Option.some.injEq] at h
      subst h
      rw [if_pos hname.symm]
      rfl
    | succ i =>
      have hx : ¬ name = x.name := fun e => hfirst 0 x (by omega) (by simp) e.symm
      rw [if_neg hx]
      simp only [List.getElem?_cons_succ] at h
      rw [ih (n + 1) i v h hname (fun j w hj hw => hfirst (j + 1) w (by omega) (by simpa using hw))]
      congr 1
      omega

theorem findVolume_none (name : List Char) :
    ∀ (vs : List XtVolume) (n : Nat), (∀ v ∈ vs, v.name ≠ name) →
      findVolume name vs n = none := by
  intro vs
  induction vs with
  | nil => intro n _; rfl
  | cons x rest ih =>
    intro n h
    unfold findVolume
    rw [if_neg (fun e => h x (List.mem_cons_self x rest) e.symm)]
    exact ih (n + 1) (fun v hv => h v (List.mem_cons_of_mem x hv))

/-- C16: when a record of the registry has exactly the name asked for,
`SetCurrentVolume` makes the first such record current, returns `TRUE` and leaves
the registry as it is; when no record has that name, it appends one zeroed record
behind the existing ones, which stay as they are and in their order, makes the new
record current and returns `FALSE`. -/
theorem SetCurrentVolume_spec (g : Globals) (name : List Char) :
    (∀ (i : Nat) (v : XtVolume), g.volumes[i]? = some v → v.name = name →
        (∀ j w, j < i → g.volumes[j]? = some w → w.name ≠ name) →
        SetCurrentVolume g name = (Globals.mk g.EXIT g.volumes (some i) g.out, true))
      ∧ ((∀ v ∈ g.volumes, v.name ≠ name) →
        SetCurrentVolume g name
          = (Globals.mk g.EXIT (g.volumes ++ [XtVolume.zeroed]) (some g.volumes.length) g.out,
              false)) := by
  constructor
  · intro i v hv hname hfirst
    unfold SetCurrentVolume
    rw [findVolume_first name g.volumes 0 i v hv hname hfirst, Nat.zero_add]
  · intro h
    unfold SetCurrentVolume
    rw [findVolume_none name g.volumes 0 h]

theorem SetCurrentVolume_spec_witness :
    SetCurrentVolume
        (Globals.mk false [XtVolume.zeroed, XtVolume.mk none 0 ['A'], XtVolume.mk none 0 ['A']]
          (some 0) []) ['A']
        = (Globals.mk false
            [XtVolume.zeroed, XtVolume.mk none 0 ['A'], XtVolume.mk none 0 ['A']] (some 1) [],
            true)
      ∧ SetCurrentVolume afterInit ['A']
        = (Globals.mk afterInit.EXIT (afterInit.volumes ++ [XtVolume.zeroed])
            (some afterInit.volumes.length) afterInit.out, false) :=
  ⟨(SetCurrentVolume_spec
      (Globals.mk false [XtVolume.zeroed, XtVolume.mk none 0 ['A'], XtVolume.mk none 0 ['A']]
        (some 0) []) ['A']).1 1 (XtVolume.mk none 0 ['A']) rfl rfl
      (fun j w hj hw => by
        have h0 : j = 0 := by omega
        subst h0
        simp only [List.getElem?_cons_zero, Option.some.injEq] at hw
        subst hw
        decide),
    (SetCurrentVolume_spec afterInit ['A']).2 (by decide)⟩


/-- C17: for an operation type other than `XT_ACTION_RVS` and `XT_ACTION_DBC`
(the tools menu, the three searches, any other code) `XT_Prepare` returns a negative
value, `-1` or `-3`, and leaves `EXIT`, the registry with every block and fill
count, and `current_volume` as they were; at most one message is handed to the
host. -/
theorem XT_Prepare_unsupported (api : XTension) (longname shortname : List Char)
    (item_count : Nat) (g : Globals) (nOpType : Nat)
    (hop : nOpType ≠ api.XT_ACTION_RVS ∧ nOpType ≠ api.XT_ACTION_DBC) :
    ∃ g1 r, XT_Prepare api longname shortname item_count g nOpType = Except.ok (g1, r)
      ∧ r < 0 ∧ (r = -1 ∨ r = -3)
      ∧ g1.EXIT = g.EXIT ∧ g1.volumes = g.volumes ∧ g1.current_volume = g.current_volume
      ∧ g1.current = g.current
      ∧ (g1.out = g.out ∨ ∃ text, g1.out = g.out ++ [Event.message text]) := by
  unfold XT_Prepare
  split
  · exact ⟨g, -1, rfl, by decide, Or.inl rfl, rfl, rfl, rfl, rfl, Or.inl rfl⟩
  · split
    · exact ⟨_, -1, rfl, by decide, Or.inl rfl, rfl, rfl, rfl, rfl, Or.inr ⟨_, rfl⟩⟩
    · split
      · exact ⟨_, -3, rfl, by decide, Or.inr rfl, rfl, rfl, rfl, rfl, Or.inr ⟨_, rfl⟩⟩
      · rw [if_neg hop.1, if_neg hop.2]
        exact ⟨_, -1, rfl, by decide, Or.inl rfl, rfl, rfl, rfl, rfl, Or.inr ⟨_, rfl⟩⟩

theorem XT_Prepare_unsupported_witness :
    (xways.XT_ACTION_LSS ≠ xways.XT_ACTION_RVS ∧ xways.XT_ACTION_LSS ≠ xways.XT_ACTION_DBC)
      ∧ ∃ g1 r, XT_Prepare xways ['D'] ['A'] 3 (afterCollect [10]) xways.XT_ACTION_LSS
            = Except.ok (g1, r)
          ∧ r < 0 ∧ (r = -1 ∨ r = -3)
          ∧ g1.EXIT = (afterCollect [10]).EXIT ∧ g1.volumes = (afterCollect [10]).volumes
          ∧ g1.current_volume = (afterCollect [10]).current_volume
          ∧ g1.current = (afterCollect [10]).current
          ∧ (g1.out = (afterCollect [10]).out
              ∨ ∃ text, g1.out = (afterCollect [10]).out ++ [Event.message text]) :=
  ⟨by decide,
    XT_Prepare_unsupported xways ['D'] ['A'] 3 (afterCollect [10]) xways.XT_ACTION_LSS
      (by decide)⟩

/-- Lines 205-243 of `XT_Prepare` change no record but the current one. -/
theorem prepareVolume_frame (api : XTension) (longname shortname : List Char)
    (item_count : Nat) (g : Globals) (return_value : Int) :
    ∃ g2 r i v, prepareVolume api longname shortname item_count g return_value
        = Except.ok (g2, r)
      ∧ g2.current_volume = some i ∧ g2.volumes[i]? = some v
      ∧ v.file_ids = some (List.replicate item_count none) ∧ v.file_count = 0
      ∧ (∀ j, j ≠ i → g2.volumes[j]? = g.volumes[j]?) := by
  unfold prepareVolume SetCurrentVolume
  cases hfind : findVolume (normalizeKey (deriveKey longname shortname)) g.volumes 0 with
  | some i =>
    have hlt : i < g.volumes.length := by
      have := (findVolume_bounds _ g.volumes 0 i hfind).2
      omega
    simp only [Globals.current, List.getElem?_eq_getElem hlt, Globals.setCurrent, if_true]
    exact ⟨_, _, i, _, rfl, rfl, List.getElem?_set_self hlt, rfl, rfl,
      fun j hj => List.getElem?_set_ne (Ne.symm hj)⟩
  | none =>
    have hlt : g.volumes.length < (g.volumes ++ [XtVolume.zeroed]).length := by simp
    simp only [Globals.current, List.getElem?_eq_getElem hlt, Globals.setCurrent,
      Bool.false_eq_true, if_false]
    refine ⟨_, _, g.volumes.length, _, rfl, rfl, List.getElem?_set_self hlt, rfl, rfl, ?_⟩
    intro j hj
    rw [List.getElem?_set_ne (Ne.symm hj)]
    by_cases hjl : j < g.volumes.length
    · exact List.getElem?_append_left hjl
    · rw [List.getElem?_eq_none (by simp; omega), List.getElem?_eq_none (by omega)]

/-- C18: after an `XT_Prepare` call with `EXIT` clear and a supported operation type,
for a volume found in the registry as well as for one just appended, the current
record holds a block of exactly `item_count` elements, none of them stored yet, and
`file_count = 0`; every other record of the registry is as it was. -/
theorem XT_Prepare_fresh_block (api : XTension) (longname shortname : List Char)
    (item_count : Nat) (g : Globals) (nOpType : Nat) (hE : g.EXIT = false)
    (hop : nOpType = api.XT_ACTION_RVS ∨ nOpType = api.XT_ACTION_DBC) :
    ∃ g1 r i v, XT_Prepare api longname shortname item_count g nOpType = Except.ok (g1, r)
      ∧ g1.current_volume = some i ∧ g1.volumes[i]? = some v
      ∧ v.file_ids = some (List.replicate item_count none) ∧ v.file_count = 0
      ∧ (∀ j, j ≠ i → g1.volumes[j]? = g.volumes[j]?) := by
  rw [XT_Prepare_supported api longname shortname item_count g nOpType hE hop]
  exact prepareVolume_frame api longname shortname item_count g _

theorem XT_Prepare_fresh_block_witness :
    (afterCollect [10]).EXIT = false
      ∧ (xways.XT_ACTION_DBC = xways.XT_ACTION_RVS ∨ xways.XT_ACTION_DBC = xways.XT_ACTION_DBC)
      ∧ ∃ g1 r i v, XT_Prepare xways ['D'] [] 3 (afterCollect [10]) xways.XT_ACTION_DBC
            = Except.ok (g1, r)
          ∧ g1.current_volume = some i ∧ g1.volumes[i]? = some v
          ∧ v.file_ids = some (List.replicate 3 none) ∧ v.file_count = 0
          ∧ (∀ j, j ≠ i → g1.volumes[j]? = (afterCollect [10]).volumes[j]?) :=
  ⟨rfl, Or.inr rfl,
    XT_Prepare_fresh_block xways ['D'] [] 3 (afterCollect [10]) xways.XT_ACTION_DBC rfl
      (Or.inr rfl)⟩

/-- C19: with `EXIT` set, `XT_Prepare`, `XT_ProcessItem`, `XT_Finalize` and `XT_Done`
return at their first test, with `-1`, `-1`, `0` and `0`, and leave the globals,
the output among them, exactly as they were; `EXIT` stays set, also across a further
`XT_Init`: no statement of the program clears it. -/
theorem EXIT_short_circuits (api : XTension) (g : Globals) (hE : g.EXIT = true) :
    (∀ (longname shortname : List Char) (item_count nOpType : Nat),
        XT_Prepare api longname shortname item_count g nOpType = Except.ok (g, -1))
      ∧ (∀ nItemID : Int, XT_ProcessItem g nItemID = Except.ok (g, -1))
      ∧ (∀ (entropyText : List BYTE → String) (host : Host),
          XT_Finalize entropyText host g = Except.ok (g, 0))
      ∧ XT_Done g = (some g, 0)
      ∧ (∀ (version nFlags : Nat) (caseProp : Int) (firstEvObj : Bool),
          (XT_Init api version nFlags caseProp firstEvObj g).1.EXIT = true) := by
  refine ⟨?_, ?_, ?_, ?_, ?_⟩
  · intro longname shortname item_count nOpType
    unfold XT_Prepare
    rw [if_pos hE]
  · intro nItemID
    unfold XT_ProcessItem
    rw [if_pos hE]
  · intro entropyText host
    unfold XT_Finalize
    rw [if_pos hE]
  · unfold XT_Done
    rw [if_pos hE]
  · intro version nFlags caseProp firstEvObj
    unfold XT_Init
    split
    · exact hE
    · split
      · exact hE
      · split
        · rfl
        · split
          · rfl
          · split
            · rfl
            · exact hE

theorem EXIT_short_circuits_witness :
    XT_Init xways 1989 xways.XT_INIT_XWF 0 true Globals.startup = (afterFailedInit, 1)
      ∧ afterFailedInit.EXIT = true
      ∧ ((∀ (longname shortname : List Char) (item_count nOpType : Nat),
            XT_Prepare xways longname shortname item_count afterFailedInit nOpType
              = Except.ok (afterFailedInit, -1))
        ∧ (∀ nItemID : Int, XT_ProcessItem afterFailedInit nItemID
            = Except.ok (afterFailedInit, -1))
        ∧ (∀ (entropyText : List BYTE → String) (host : Host),
            XT_Finalize entropyText host afterFailedInit = Except.ok (afterFailedInit, 0))
        ∧ XT_Done afterFailedInit = (some afterFailedInit, 0)
        ∧ (∀ (version nFlags : Nat) (caseProp : Int) (firstEvObj : Bool),
            (XT_Init xways version nFlags caseProp firstEvObj afterFailedInit).1.EXIT = true)) :=
  ⟨by decide, rfl, EXIT_short_circuits xways afterFailedInit rfl⟩


/-! ## The names stored in the registry -/

theorem names_set (l : List XtVolume) (i : Nat) (v w : XtVolume) (hv : l[i]? = some v)
    (hw : w.name = v.name) (h : ∀ x ∈ l, x.name = []) : ∀ x ∈ l.set i w, x.name = [] := by
  intro x hx
  rcases List.mem_or_eq_of_mem_set hx with h1 | h1
  · exact h x h1
  · rw [h1, hw]
    exact h v (List.getElem?_mem hv)

/-- An assignment to fields of `*current_volume` other than `name` keeps every name
empty and the number of records. -/
theorem setCurrent_names (g : Globals) (v w : XtVolume) (hcur : g.current = some v)
    (hw : w.name = v.name)
    (h : 0 < g.volumes.length ∧ ∀ x ∈ g.volumes, x.name = []) :
    0 < (g.setCurrent w).volumes.length ∧ ∀ x ∈ (g.setCurrent w).volumes, x.name = [] := by
  obtain ⟨i, hc, hv, _⟩ := current_some g v hcur
  rw [setCurrent_eq g i w hc]
  exact ⟨by simpa using h.1, names_set g.volumes i v w hv hw h.2⟩

theorem XT_Init_names (api : XTension) (version nFlags : Nat) (caseProp : Int)
    (firstEvObj : Bool) (g0 g : Globals)
    (h : XT_Init api version nFlags caseProp firstEvObj g0 = (g, 0)) :
    0 < g.volumes.length ∧ ∀ x ∈ g.volumes, x.name = [] := by
  unfold XT_Init at h
  split at h
  · exact absurd (congrArg Prod.snd h) (by simp)
  · split at h
    · exact absurd (congrArg Prod.snd h) (by simp)
    · split at h
      · exact absurd (congrArg Prod.snd h) (by simp)
      · split at h
        · exact absurd (congrArg Prod.snd h) (by simp)
        · split at h
          · exact absurd (congrArg Prod.snd h) (by simp)
          · have hg := congrArg Prod.fst h
            simp only at hg
            subst hg
            refine ⟨by simp, ?_⟩
            intro x hx
            simp only [List.mem_singleton] at hx
            subst hx
            rfl

theorem prepareVolume_names (api : XTension) (longname shortname : List Char)
    (item_count : Nat) (g g1 : Globals) (return_value r : Int)
    (hp : prepareVolume api longname shortname item_count g return_value = Except.ok (g1, r))
    (h : 0 < g.volumes.length ∧ ∀ x ∈ g.volumes, x.name = []) :
    0 < g1.volumes.length ∧ ∀ x ∈ g1.volumes, x.name = [] := by
  unfold prepareVolume SetCurrentVolume at hp
  cases hfind : findVolume (normalizeKey (deriveKey longname shortname)) g.volumes 0 with
  | some i =>
    have hlt : i < g.volumes.length := by
      have := (findVolume_bounds _ g.volumes 0 i hfind).2
      omega
    rw [hfind] at hp
    simp only [Globals.current, List.getElem?_eq_getElem hlt, Globals.setCurrent, if_true,
      Except.ok.injEq, Prod.mk.injEq] at hp
    rw [← hp.1]
    exact ⟨by simpa using h.1,
      names_set g.volumes i (g.volumes[i]) _ (List.getElem?_eq_getElem hlt) rfl h.2⟩
  | none =>
    have hlt : g.volumes.length < (g.volumes ++ [XtVolume.zeroed]).length := by simp
    have hall : ∀ x ∈ g.volumes ++ [XtVolume.zeroed], x.name = [] := by
      intro x hx
      rcases List.mem_append.mp hx with h1 | h1
      · exact h.2 x h1
      · simp only [List.mem_singleton] at h1
        rw [h1]
        rfl
    rw [hfind] at hp
    simp only [Globals.current, List.getElem?_eq_getElem hlt, Globals.setCurrent,
      Bool.false_eq_true, if_false, Except.ok.injEq, Prod.mk.injEq] at hp
    rw [← hp.1]
    exact ⟨by simp,
      names_set (g.volumes ++ [XtVolume.zeroed]) g.volumes.length _ _
        (List.getElem?_eq_getElem hlt) rfl hall⟩

theorem XT_Prepare_names (api : XTension) (longname shortname : List Char)
    (item_count nOpType : Nat) (g g1 : Globals) (r : Int)
    (hp : XT_Prepare api longname shortname item_count g nOpType = Except.ok (g1, r))
    (h : 0 < g.volumes.length ∧ ∀ x ∈ g.volumes, x.name = []) :
    0 < g1.volumes.length ∧ ∀ x ∈ g1.volumes, x.name = [] := by
  unfold XT_Prepare at hp
  split at hp
  · simp only [Except.ok.injEq, Prod.mk.injEq] at hp
    rw [← hp.1]; exact h
  · split at hp
    · simp only [Except.ok.injEq, Prod.mk.injEq] at hp
      rw [← hp.1]; exact h
    · split at hp
      · simp only [Except.ok.injEq, Prod.mk.injEq] at hp
        rw [← hp.1]; exact h
      · split at hp
        · exact prepareVolume_names api longname shortname item_count g g1 _ r hp h
        · split at hp
          · exact prepareVolume_names api longname shortname item_count g g1 _ r hp h
          · simp only [Except.ok.injEq, Prod.mk.injEq] at hp
            rw [← hp.1]; exact h

theorem XT_ProcessItem_names (nItemID : Int) (g g1 : Globals) (r : Int)
    (hp : XT_ProcessItem g nItemID = Except.ok (g1, r))
    (h : 0 < g.volumes.length ∧ ∀ x ∈ g.volumes, x.name = []) :
    0 < g1.volumes.length ∧ ∀ x ∈ g1.volumes, x.name = [] := by
  unfold XT_ProcessItem at hp
  split at hp
  · simp only [Except.ok.injEq, Prod.mk.injEq] at hp
    rw [← hp.1]; exact h
  · split at hp
    · simp only [Except.ok.injEq, Prod.mk.injEq] at hp
      rw [← hp.1]; exact h
    · split at hp
      · exact absurd hp (by simp)
      · next v hcur =>
        split at hp
        · exact absurd hp (by simp)
        · split at hp
          · simp only [Except.ok.injEq, Prod.mk.injEq] at hp
            rw [← hp.1]
            exact setCurrent_names g v _ hcur rfl h
          · exact absurd hp (by simp)

theorem XT_Finalize_names (entropyText : List BYTE → String) (host : Host)
    (g g1 : Globals) (r : Int)
    (hp : XT_Finalize entropyText host g = Except.ok (g1, r))
    (h : 0 < g.volumes.length ∧ ∀ x ∈ g.volumes, x.name = []) :
    0 < g1.volumes.length ∧ ∀ x ∈ g1.volumes, x.name = [] := by
  unfold XT_Finalize at hp
  split at hp
  · simp only [Except.ok.injEq, Prod.mk.injEq] at hp
    rw [← hp.1]; exact h
  · split at hp
    · exact absurd hp (by simp)
    · next v hcur =>
      split at hp
      · simp only [Except.ok.injEq, Prod.mk.injEq] at hp
        rw [← hp.1]; exact h
      · split at hp
        · simp only [Except.ok.injEq, Prod.mk.injEq] at hp
          rw [← hp.1]; exact h
        · split at hp
          · exact absurd hp (by simp)
          · simp only [Except.ok.injEq, Prod.mk.injEq] at hp
            rw [← hp.1]; exact h
          · simp only [Except.ok.injEq, Prod.mk.injEq] at hp
            rw [← hp.1]
            exact setCurrent_names (Globals.mk g.EXIT g.volumes g.current_volume _) v _
              hcur rfl h

/-- In every reachable state the registry is not empty and every record has the
empty name. -/
theorem Reachable_names (api : XTension) (g : Globals) (h : Reachable api g) :
    0 < g.volumes.length ∧ ∀ x ∈ g.volumes, x.name = [] := by
  induction h with
  | init version nFlags caseProp firstEvObj g0 g hinit =>
    exact XT_Init_names api version nFlags caseProp firstEvObj g0 g hinit
  | prepare longname shortname item_count nOpType g g1 r _ hp ih =>
    exact XT_Prepare_names api longname shortname item_count nOpType g g1 r hp ih
  | collect nItemID g g1 r _ hp ih => exact XT_ProcessItem_names nItemID g g1 r hp ih
  | finish entropyText host g g1 r _ hp ih =>
    exact XT_Finalize_names entropyText host g g1 r hp ih

/-- C20: in every state reachable from a successful `XT_Init` through `XT_Prepare`,
`XT_ProcessItem` and `XT_Finalize` calls, every record of the registry has the empty
name; so `SetCurrentVolume` returns `FALSE` and appends a record for every non-empty
name, and returns `TRUE` only for the empty name (for which it does return `TRUE`). -/
theorem Reachable_names_empty (api : XTension) (g : Globals) (h : Reachable api g) :
    (∀ v ∈ g.volumes, v.name = [])
      ∧ (∀ name : List Char, name ≠ [] →
          SetCurrentVolume g name
            = (Globals.mk g.EXIT (g.volumes ++ [XtVolume.zeroed]) (some g.volumes.length)
                g.out, false))
      ∧ (∀ name : List Char, (SetCurrentVolume g name).2 = true → name = [])
      ∧ (SetCurrentVolume g []).2 = true := by
  obtain ⟨hpos, hnames⟩ := Reachable_names api g h
  have hnew : ∀ name : List Char, name ≠ [] →
      SetCurrentVolume g name
        = (Globals.mk g.EXIT (g.volumes ++ [XtVolume.zeroed]) (some g.volumes.length)
            g.out, false) := by
    intro name hne
    unfold SetCurrentVolume
    rw [findVolume_none name g.volumes 0 (fun v hv e => hne (by rw [← e, hnames v hv]))]
  refine ⟨hnames, hnew, ?_, ?_⟩
  · intro name htrue
    by_contra hne
    rw [hnew name hne] at htrue
    exact absurd htrue (by simp)
  · have h0 : g.volumes[0]? = some (g.volumes[0]) := List.getElem?_eq_getElem hpos
    unfold SetCurrentVolume
    rw [findVolume_first [] g.volumes 0 0 _ h0 (hnames _ (List.getElem_mem hpos))
      (fun j w hj _ => absurd hj (by omega))]

theorem Reachable_names_empty_witness :
    Reachable xways (afterPrepare 1)
      ∧ ((∀ v ∈ (afterPrepare 1).volumes, v.name = [])
        ∧ (∀ name : List Char, name ≠ [] →
            SetCurrentVolume (afterPrepare 1) name
              = (Globals.mk (afterPrepare 1).EXIT ((afterPrepare 1).volumes ++ [XtVolume.zeroed])
                  (some (afterPrepare 1).volumes.length) (afterPrepare 1).out, false))
        ∧ (∀ name : List Char, (SetCurrentVolume (afterPrepare 1) name).2 = true → name = [])
        ∧ (SetCurrentVolume (afterPrepare 1) []).2 = true) :=
  ⟨Reachable.prepare ['D'] ['A'] 1 xways.XT_ACTION_RVS afterInit (afterPrepare 1) 1
      (Reachable.init 2000 xways.XT_INIT_XWF 0 true Globals.startup afterInit rfl) rfl,
    Reachable_names_empty xways (afterPrepare 1)
      (Reachable.prepare ['D'] ['A'] 1 xways.XT_ACTION_RVS afterInit (afterPrepare 1) 1
        (Reachable.init 2000 xways.XT_INIT_XWF 0 true Globals.startup afterInit rfl) rfl)⟩

end XtEntropy
